import Mathlib

/-!
Verification of the byte-io codec library.

The library converts fixed-width scalars (u8/i8/u16/i16/u32/i32/u64/i64,
f32/f64, bool) to and from byte slices in big- or little-endian order, and
lifts the scalar codecs to `Vec<T>`.

Shallow embedding conventions:
* a byte slice `&[u8]` is a `List Nat` whose entries are 0..255 (the `< 256`
  bound is the invariant of the Rust `u8` element type; theorems that depend
  on it carry it as a hypothesis);
* unsigned integers are `Nat`, signed integers are `Int` in two's-complement
  range; `f32`/`f64` values are represented by their IEEE-754 bit patterns
  (`Nat`), since the library moves float bits with `transmute` and never
  interprets them numerically;
* a slice read `i[k]` is `i[k]?` in the `Option` monad: `none` models the
  out-of-bounds panic;
* a slice write `a[k] = x` is one step of `execWritesIn`, which checks the
  index against the slice bound before mutating; on an out-of-bounds index it
  stops with `Except.error`, carrying the buffer state at the moment of the
  panic so that partial mutation before a fault is observable.
-/

namespace ByteIO

/-- Byte order selector, as in the spec's `{BigEndian, LittleEndian}`. -/
inductive Order where
  | be
  | le
deriving DecidableEq

/-- The scalar types for which the library implements Readable/Writeable. -/
inductive ScalarTy where
  | u8
  | i8
  | u16
  | i16
  | u32
  | i32
  | u64
  | i64
  | f32
  | f64
  | bool
deriving DecidableEq

/-- Byte width of each scalar type (Rust `size_of::<T>()`). -/
@[reducible] def width : ScalarTy → Nat
  | .u8 => 1
  | .i8 => 1
  | .u16 => 2
  | .i16 => 2
  | .u32 => 4
  | .i32 => 4
  | .u64 => 8
  | .i64 => 8
  | .f32 => 4
  | .f64 => 8
  | .bool => 1

/-- Lean carrier of each scalar type's values. -/
@[reducible] def Value : ScalarTy → Type
  | .u8 => Nat
  | .i8 => Int
  | .u16 => Nat
  | .i16 => Int
  | .u32 => Nat
  | .i32 => Int
  | .u64 => Nat
  | .i64 => Int
  | .f32 => Nat
  | .f64 => Nat
  | .bool => Bool

/-- Range invariant of each Rust scalar type on its Lean carrier. -/
@[reducible] def valid : (t : ScalarTy) → Value t → Prop
  | .u8, v => v < 2 ^ 8
  | .i8, v => -(2 ^ 7) ≤ v ∧ v < 2 ^ 7
  | .u16, v => v < 2 ^ 16
  | .i16, v => -(2 ^ 15) ≤ v ∧ v < 2 ^ 15
  | .u32, v => v < 2 ^ 32
  | .i32, v => -(2 ^ 31) ≤ v ∧ v < 2 ^ 31
  | .u64, v => v < 2 ^ 64
  | .i64, v => -(2 ^ 63) ≤ v ∧ v < 2 ^ 63
  | .f32, v => v < 2 ^ 32
  | .f64, v => v < 2 ^ 64
  | .bool, _ => True

/-- Reinterpret a `w`-bit pattern as a two's-complement signed value
(Rust `as iN` of the composed bit pattern). -/
def toSigned (w : Nat) (p : Nat) : Int :=
  if p % 2 ^ w < 2 ^ (w - 1) then (p % 2 ^ w : Nat) else (p % 2 ^ w : Nat) - 2 ^ w

/-- Rust `as u8` on a signed value: the low 8 bits of the two's-complement
pattern. `Int.emod` is nonnegative, so this is exact. -/
def asU8 (v : Int) : Nat := (v % 256).toNat

/-- Rust arithmetic right shift `v >> k` on a signed value: floor division by
`2 ^ k`, which for a positive divisor coincides with Lean's Euclidean `/`. -/
def ashr (v : Int) (k : Nat) : Int := v / 2 ^ k

/-! Scalar decoders, translated from the `Readable` impls in src/src/lib.rs.
Each slice read `i[k]` is `i[k]?`; the bound `i[k] < 256` is the `u8` type
invariant and is not re-imposed here. -/

/-- Readable for u8, big-endian: `a[0]`. -/
def u8.from_u8_be (a : List Nat) : Option Nat := do
  let b0 ← a[0]?
  pure b0

/-- Readable for u8, little-endian: `a[0]`. -/
def u8.from_u8_le (a : List Nat) : Option Nat := do
  let b0 ← a[0]?
  pure b0

/-- Readable for i8, big-endian: `i[0] as i8`. -/
def i8.from_u8_be (i : List Nat) : Option Int := do
  let b0 ← i[0]?
  pure (toSigned 8 b0)

/-- Readable for i8, little-endian: `i[0] as i8`. -/
def i8.from_u8_le (i : List Nat) : Option Int := do
  let b0 ← i[0]?
  pure (toSigned 8 b0)

/-- Readable for u16, big-endian: `(i[0] as u16) << 8 | i[1] as u16`. -/
def u16.from_u8_be (i : List Nat) : Option Nat := do
  let b0 ← i[0]?
  let b1 ← i[1]?
  pure ((b0 <<< 8) ||| b1)

/-- Readable for u16, little-endian: `(i[1] as u16) << 8 | i[0] as u16`. -/
def u16.from_u8_le (i : List Nat) : Option Nat := do
  let b0 ← i[0]?
  let b1 ← i[1]?
  pure ((b1 <<< 8) ||| b0)

/-- Readable for i16, big-endian: same pattern as u16, reinterpreted as i16. -/
def i16.from_u8_be (i : List Nat) : Option Int := do
  let b0 ← i[0]?
  let b1 ← i[1]?
  pure (toSigned 16 ((b0 <<< 8) ||| b1))

/-- Readable for i16, little-endian: same pattern as u16, reinterpreted. -/
def i16.from_u8_le (i : List Nat) : Option Int := do
  let b0 ← i[0]?
  let b1 ← i[1]?
  pure (toSigned 16 ((b1 <<< 8) ||| b0))

/-- Readable for u32, big-endian:
`(i[0] as u32) << 24 | (i[1] as u32) << 16 | (i[2] as u32) << 8 | i[3] as u32`. -/
def u32.from_u8_be (i : List Nat) : Option Nat := do
  let b0 ← i[0]?
  let b1 ← i[1]?
  let b2 ← i[2]?
  let b3 ← i[3]?
  pure ((b0 <<< 24) ||| (b1 <<< 16) ||| (b2 <<< 8) ||| b3)

/-- Readable for u32, little-endian: bytes in the mirrored positions. -/
def u32.from_u8_le (i : List Nat) : Option Nat := do
  let b0 ← i[0]?
  let b1 ← i[1]?
  let b2 ← i[2]?
  let b3 ← i[3]?
  pure ((b3 <<< 24) ||| (b2 <<< 16) ||| (b1 <<< 8) ||| b0)

/-- Readable for i32, big-endian: the u32 pattern reinterpreted as i32. -/
def i32.from_u8_be (i : List Nat) : Option Int := do
  let b0 ← i[0]?
  let b1 ← i[1]?
  let b2 ← i[2]?
  let b3 ← i[3]?
  pure (toSigned 32 ((b0 <<< 24) ||| (b1 <<< 16) ||| (b2 <<< 8) ||| b3))

/-- Readable for i32, little-endian. -/
def i32.from_u8_le (i : List Nat) : Option Int := do
  let b0 ← i[0]?
  let b1 ← i[1]?
  let b2 ← i[2]?
  let b3 ← i[3]?
  pure (toSigned 32 ((b3 <<< 24) ||| (b2 <<< 16) ||| (b1 <<< 8) ||| b0))

/-- Readable for u64, big-endian. -/
def u64.from_u8_be (i : List Nat) : Option Nat := do
  let b0 ← i[0]?
  let b1 ← i[1]?
  let b2 ← i[2]?
  let b3 ← i[3]?
  let b4 ← i[4]?
  let b5 ← i[5]?
  let b6 ← i[6]?
  let b7 ← i[7]?
  pure ((b0 <<< 56) ||| (b1 <<< 48) ||| (b2 <<< 40) ||| (b3 <<< 32) |||
    (b4 <<< 24) ||| (b5 <<< 16) ||| (b6 <<< 8) ||| b7)

/-- Readable for u64, little-endian. -/
def u64.from_u8_le (i : List Nat) : Option Nat := do
  let b0 ← i[0]?
  let b1 ← i[1]?
  let b2 ← i[2]?
  let b3 ← i[3]?
  let b4 ← i[4]?
  let b5 ← i[5]?
  let b6 ← i[6]?
  let b7 ← i[7]?
  pure ((b7 <<< 56) ||| (b6 <<< 48) ||| (b5 <<< 40) ||| (b4 <<< 32) |||
    (b3 <<< 24) ||| (b2 <<< 16) ||| (b1 <<< 8) ||| b0)

/-- Readable for i64, big-endian. -/
def i64.from_u8_be (i : List Nat) : Option Int := do
  let b0 ← i[0]?
  let b1 ← i[1]?
  let b2 ← i[2]?
  let b3 ← i[3]?
  let b4 ← i[4]?
  let b5 ← i[5]?
  let b6 ← i[6]?
  let b7 ← i[7]?
  pure (toSigned 64 ((b0 <<< 56) ||| (b1 <<< 48) ||| (b2 <<< 40) ||| (b3 <<< 32) |||
    (b4 <<< 24) ||| (b5 <<< 16) ||| (b6 <<< 8) ||| b7))

/-- Readable for i64, little-endian. -/
def i64.from_u8_le (i : List Nat) : Option Int := do
  let b0 ← i[0]?
  let b1 ← i[1]?
  let b2 ← i[2]?
  let b3 ← i[3]?
  let b4 ← i[4]?
  let b5 ← i[5]?
  let b6 ← i[6]?
  let b7 ← i[7]?
  pure (toSigned 64 ((b7 <<< 56) ||| (b6 <<< 48) ||| (b5 <<< 40) ||| (b4 <<< 32) |||
    (b3 <<< 24) ||| (b2 <<< 16) ||| (b1 <<< 8) ||| b0))

/-- Readable for bool: `i[0] > 0`, both orders. -/
def bool.from_u8_be (i : List Nat) : Option Bool := do
  let b0 ← i[0]?
  pure (decide (0 < b0))

/-- Readable for bool, little-endian: identical to big-endian. -/
def bool.from_u8_le (i : List Nat) : Option Bool := do
  let b0 ← i[0]?
  pure (decide (0 < b0))

/-- Readable for f32, big-endian: `transmute(u32::from_u8_be(i))`; the
transmute is the identity on the 32-bit pattern that represents the float. -/
def f32.from_u8_be (i : List Nat) : Option Nat := u32.from_u8_be i

/-- Readable for f32, little-endian. -/
def f32.from_u8_le (i : List Nat) : Option Nat := u32.from_u8_le i

/-- Readable for f64, big-endian: `transmute(u64::from_u8_be(i))`. -/
def f64.from_u8_be (i : List Nat) : Option Nat := u64.from_u8_be i

/-- Readable for f64, little-endian. -/
def f64.from_u8_le (i : List Nat) : Option Nat := u64.from_u8_le i

/-! Scalar encoders. Each `Writeable` impl body is a sequence of slice stores
`a[j] = x`, kept in source order as a list of (index, value) pairs; the pairs
are then executed one at a time by `execWritesIn`, which re-creates the
bounds check each store performs. -/

/-- Execute stores one at a time inside the slice view that starts at absolute
offset `off` and has length `len`. A store `a[j] = x` first checks `j` against
the slice length; an out-of-bounds index raises the panic, returning the
buffer as already mutated by the preceding stores. -/
def execWritesIn (off len : Nat) : List (Nat × Nat) → List Nat → Except (List Nat) (List Nat)
  | [], buf => .ok buf
  | (j, x) :: rest, buf =>
    if j < len then execWritesIn off len rest (buf.set (off + j) x)
    else .error buf

/-- Execute a store sequence on a whole slice (view at offset 0). -/
def execWrites (ws : List (Nat × Nat)) (buf : List Nat) : Except (List Nat) (List Nat) :=
  execWritesIn 0 buf.length ws buf

/-- Writeable for u8, big-endian: `a[0] = *v`. -/
def u8.to_u8_be_writes (v : Nat) : List (Nat × Nat) := [(0, v)]

/-- Writeable for u8, little-endian: `a[0] = *v`. -/
def u8.to_u8_le_writes (v : Nat) : List (Nat × Nat) := [(0, v)]

/-- Writeable for i8, big-endian: `a[0] = *v as u8`. -/
def i8.to_u8_be_writes (v : Int) : List (Nat × Nat) := [(0, asU8 v)]

/-- Writeable for i8, little-endian: `a[0] = *v as u8`. -/
def i8.to_u8_le_writes (v : Int) : List (Nat × Nat) := [(0, asU8 v)]

/-- Writeable for u16, big-endian: `a[0] = (*v >> 8) as u8; a[1] = *v as u8`. -/
def u16.to_u8_be_writes (v : Nat) : List (Nat × Nat) :=
  [(0, (v >>> 8) % 256), (1, v % 256)]

/-- Writeable for u16, little-endian: `a[1] = (*v >> 8) as u8; a[0] = *v as u8`. -/
def u16.to_u8_le_writes (v : Nat) : List (Nat × Nat) :=
  [(1, (v >>> 8) % 256), (0, v % 256)]

/-- Writeable for i16, big-endian. -/
def i16.to_u8_be_writes (v : Int) : List (Nat × Nat) :=
  [(0, asU8 (ashr v 8)), (1, asU8 v)]

/-- Writeable for i16, little-endian. -/
def i16.to_u8_le_writes (v : Int) : List (Nat × Nat) :=
  [(1, asU8 (ashr v 8)), (0, asU8 v)]

/-- Writeable for u32, big-endian: stores to `a[0]`, `a[1]`, `a[2]`, `a[3]`
of the shifted value, most significant first. -/
def u32.to_u8_be_writes (v : Nat) : List (Nat × Nat) :=
  [(0, (v >>> 24) % 256), (1, (v >>> 16) % 256), (2, (v >>> 8) % 256), (3, v % 256)]

/-- Writeable for u32, little-endian: stores to `a[3]`, `a[2]`, `a[1]`, `a[0]`
in that source order. -/
def u32.to_u8_le_writes (v : Nat) : List (Nat × Nat) :=
  [(3, (v >>> 24) % 256), (2, (v >>> 16) % 256), (1, (v >>> 8) % 256), (0, v % 256)]

/-- Writeable for i32, big-endian. -/
def i32.to_u8_be_writes (v : Int) : List (Nat × Nat) :=
  [(0, asU8 (ashr v 24)), (1, asU8 (ashr v 16)), (2, asU8 (ashr v 8)), (3, asU8 v)]

/-- Writeable for i32, little-endian. -/
def i32.to_u8_le_writes (v : Int) : List (Nat × Nat) :=
  [(3, asU8 (ashr v 24)), (2, asU8 (ashr v 16)), (1, asU8 (ashr v 8)), (0, asU8 v)]

/-- Writeable for u64, big-endian. -/
def u64.to_u8_be_writes (v : Nat) : List (Nat × Nat) :=
  [(0, (v >>> 56) % 256), (1, (v >>> 48) % 256), (2, (v >>> 40) % 256), (3, (v >>> 32) % 256),
   (4, (v >>> 24) % 256), (5, (v >>> 16) % 256), (6, (v >>> 8) % 256), (7, v % 256)]

/-- Writeable for u64, little-endian: stores from `a[7]` down to `a[0]`. -/
def u64.to_u8_le_writes (v : Nat) : List (Nat × Nat) :=
  [(7, (v >>> 56) % 256), (6, (v >>> 48) % 256), (5, (v >>> 40) % 256), (4, (v >>> 32) % 256),
   (3, (v >>> 24) % 256), (2, (v >>> 16) % 256), (1, (v >>> 8) % 256), (0, v % 256)]

/-- Writeable for i64, big-endian. -/
def i64.to_u8_be_writes (v : Int) : List (Nat × Nat) :=
  [(0, asU8 (ashr v 56)), (1, asU8 (ashr v 48)), (2, asU8 (ashr v 40)), (3, asU8 (ashr v 32)),
   (4, asU8 (ashr v 24)), (5, asU8 (ashr v 16)), (6, asU8 (ashr v 8)), (7, asU8 v)]

/-- Writeable for i64, little-endian: stores from `a[7]` down to `a[0]`. -/
def i64.to_u8_le_writes (v : Int) : List (Nat × Nat) :=
  [(7, asU8 (ashr v 56)), (6, asU8 (ashr v 48)), (5, asU8 (ashr v 40)), (4, asU8 (ashr v 32)),
   (3, asU8 (ashr v 24)), (2, asU8 (ashr v 16)), (1, asU8 (ashr v 8)), (0, asU8 v)]

/-- Writeable for bool: `a[0] = if *v { 1 } else { 0 }`, both orders. -/
def bool.to_u8_be_writes (v : Bool) : List (Nat × Nat) := [(0, if v then 1 else 0)]

/-- Writeable for bool, little-endian: identical to big-endian. -/
def bool.to_u8_le_writes (v : Bool) : List (Nat × Nat) := [(0, if v then 1 else 0)]

/-- Writeable for f32, big-endian: `u32::to_u8_be(transmute(v), a)`; the value
is already carried as its 32-bit pattern. -/
def f32.to_u8_be_writes (v : Nat) : List (Nat × Nat) := u32.to_u8_be_writes v

/-- Writeable for f32, little-endian. -/
def f32.to_u8_le_writes (v : Nat) : List (Nat × Nat) := u32.to_u8_le_writes v

/-- Writeable for f64, big-endian: `u64::to_u8_be(transmute(v), a)`. -/
def f64.to_u8_be_writes (v : Nat) : List (Nat × Nat) := u64.to_u8_be_writes v

/-- Writeable for f64, little-endian. -/
def f64.to_u8_le_writes (v : Nat) : List (Nat × Nat) := u64.to_u8_le_writes v

/-! Entry points. `read_be::<T>` / `read_le::<T>` / `write_be::<T>` /
`write_le::<T>` forward to the trait impl selected by the requested type;
here the static dispatch is a match on a `ScalarTy` code and the byte order. -/

/-- Entry points `read_be` (order `.be`) and `read_le` (order `.le`):
forward to `T::from_u8_be` / `T::from_u8_le`. -/
def read : (t : ScalarTy) → Order → List Nat → Option (Value t)
  | .u8, .be => u8.from_u8_be
  | .u8, .le => u8.from_u8_le
  | .i8, .be => i8.from_u8_be
  | .i8, .le => i8.from_u8_le
  | .u16, .be => u16.from_u8_be
  | .u16, .le => u16.from_u8_le
  | .i16, .be => i16.from_u8_be
  | .i16, .le => i16.from_u8_le
  | .u32, .be => u32.from_u8_be
  | .u32, .le => u32.from_u8_le
  | .i32, .be => i32.from_u8_be
  | .i32, .le => i32.from_u8_le
  | .u64, .be => u64.from_u8_be
  | .u64, .le => u64.from_u8_le
  | .i64, .be => i64.from_u8_be
  | .i64, .le => i64.from_u8_le
  | .f32, .be => f32.from_u8_be
  | .f32, .le => f32.from_u8_le
  | .f64, .be => f64.from_u8_be
  | .f64, .le => f64.from_u8_le
  | .bool, .be => bool.from_u8_be
  | .bool, .le => bool.from_u8_le

/-- Store sequence of the `Writeable` impl selected by type and order. -/
def writeProg : (t : ScalarTy) → Order → Value t → List (Nat × Nat)
  | .u8, .be => u8.to_u8_be_writes
  | .u8, .le => u8.to_u8_le_writes
  | .i8, .be => i8.to_u8_be_writes
  | .i8, .le => i8.to_u8_le_writes
  | .u16, .be => u16.to_u8_be_writes
  | .u16, .le => u16.to_u8_le_writes
  | .i16, .be => i16.to_u8_be_writes
  | .i16, .le => i16.to_u8_le_writes
  | .u32, .be => u32.to_u8_be_writes
  | .u32, .le => u32.to_u8_le_writes
  | .i32, .be => i32.to_u8_be_writes
  | .i32, .le => i32.to_u8_le_writes
  | .u64, .be => u64.to_u8_be_writes
  | .u64, .le => u64.to_u8_le_writes
  | .i64, .be => i64.to_u8_be_writes
  | .i64, .le => i64.to_u8_le_writes
  | .f32, .be => f32.to_u8_be_writes
  | .f32, .le => f32.to_u8_le_writes
  | .f64, .be => f64.to_u8_be_writes
  | .f64, .le => f64.to_u8_le_writes
  | .bool, .be => bool.to_u8_be_writes
  | .bool, .le => bool.to_u8_le_writes

/-- Entry points `write_be` (order `.be`) and `write_le` (order `.le`):
forward to `T::to_u8_be` / `T::to_u8_le`, i.e. run the impl's store sequence
on the whole output slice. -/
def write (t : ScalarTy) (ord : Order) (v : Value t) (buffer : List Nat) :
    Except (List Nat) (List Nat) :=
  execWrites (writeProg t ord v) buffer

/-! Sequence adapter: the `Readable`/`Writeable` impls for `Vec<T>`. -/

/-- Rust range slicing `&l[a..b]`: panics unless `a <= b <= l.len()`. -/
def sliceRange (l : List Nat) (a b : Nat) : Option (List Nat) :=
  if a ≤ b ∧ b ≤ l.length then some ((l.drop a).take (b - a)) else none

/-- Loop of `Vec<T>::from_u8_be` / `from_u8_le`:
`for i in 0..input.len() / t_size { output.push(T::from_u8(&input[i*t..(i+1)*t])) }`,
unrolled with `i` the next slot index and `n` the remaining iteration count. -/
def Vec.from_loop (w : Nat) (dec : List Nat → Option α) (input : List Nat) :
    Nat → Nat → Option (List α)
  | _, 0 => some []
  | i, n + 1 => do
    let s ← sliceRange input (i * w) ((i + 1) * w)
    let x ← dec s
    let rest ← Vec.from_loop w dec input (i + 1) n
    pure (x :: rest)

/-- Readable for `Vec<T>`: decode `input.len() / size_of::<T>()` elements,
element `i` from the slice `[i*t_size .. (i+1)*t_size)`. -/
def Vec.from_u8 (w : Nat) (dec : List Nat → Option α) (input : List Nat) : Option (List α) :=
  Vec.from_loop w dec input 0 (input.length / w)

/-- Loop of `Vec<T>::to_u8_be` / `to_u8_le`: for each element in order, take
the subslice `&mut buf[i*t_size..(i+1)*t_size]` (panicking if it does not
fit) and run the element's store sequence inside that view. -/
def Vec.to_u8 (w : Nat) (wprog : α → List (Nat × Nat)) :
    List α → Nat → List Nat → Except (List Nat) (List Nat)
  | [], _, buf => .ok buf
  | x :: xs, i, buf =>
    if (i + 1) * w ≤ buf.length then
      match execWritesIn (i * w) w (wprog x) buf with
      | .ok buf2 => Vec.to_u8 w wprog xs (i + 1) buf2
      | .error e => .error e
    else .error buf

/-- Readable for `Vec<T>` dispatched by element type and order. -/
def vecRead (t : ScalarTy) (ord : Order) (input : List Nat) : Option (List (Value t)) :=
  Vec.from_u8 (width t) (read t ord) input

/-- Writeable for `Vec<T>` dispatched by element type and order. -/
def vecWrite (t : ScalarTy) (ord : Order) (v : List (Value t)) (buf : List Nat) :
    Except (List Nat) (List Nat) :=
  Vec.to_u8 (width t) (writeProg t ord) v 0 buf

/-- Byte image of a u8 encode. -/
def u8.encBytes (v : Nat) : List Nat := [v]

/-- Byte image of an i8 encode. -/
def i8.encBytes (v : Int) : List Nat := [asU8 v]

/-- Byte image of a u16 big-endian encode, by target index. -/
def u16.encBytes_be (v : Nat) : List Nat := [(v >>> 8) % 256, v % 256]

/-- Byte image of a u16 little-endian encode, by target index. -/
def u16.encBytes_le (v : Nat) : List Nat := [v % 256, (v >>> 8) % 256]

/-- Byte image of an i16 big-endian encode, by target index. -/
def i16.encBytes_be (v : Int) : List Nat := [asU8 (ashr v 8), asU8 v]

/-- Byte image of an i16 little-endian encode, by target index. -/
def i16.encBytes_le (v : Int) : List Nat := [asU8 v, asU8 (ashr v 8)]

/-- Byte image of a u32 big-endian encode, by target index. -/
def u32.encBytes_be (v : Nat) : List Nat :=
  [(v >>> 24) % 256, (v >>> 16) % 256, (v >>> 8) % 256, v % 256]

/-- Byte image of a u32 little-endian encode, by target index. -/
def u32.encBytes_le (v : Nat) : List Nat :=
  [v % 256, (v >>> 8) % 256, (v >>> 16) % 256, (v >>> 24) % 256]

/-- Byte image of an i32 big-endian encode, by target index. -/
def i32.encBytes_be (v : Int) : List Nat :=
  [asU8 (ashr v 24), asU8 (ashr v 16), asU8 (ashr v 8), asU8 v]

/-- Byte image of an i32 little-endian encode, by target index. -/
def i32.encBytes_le (v : Int) : List Nat :=
  [asU8 v, asU8 (ashr v 8), asU8 (ashr v 16), asU8 (ashr v 24)]

/-- Byte image of a u64 big-endian encode, by target index. -/
def u64.encBytes_be (v : Nat) : List Nat :=
  [(v >>> 56) % 256, (v >>> 48) % 256, (v >>> 40) % 256, (v >>> 32) % 256,
   (v >>> 24) % 256, (v >>> 16) % 256, (v >>> 8) % 256, v % 256]

/-- Byte image of a u64 little-endian encode, by target index. -/
def u64.encBytes_le (v : Nat) : List Nat :=
  [v % 256, (v >>> 8) % 256, (v >>> 16) % 256, (v >>> 24) % 256,
   (v >>> 32) % 256, (v >>> 40) % 256, (v >>> 48) % 256, (v >>> 56) % 256]

/-- Byte image of an i64 big-endian encode, by target index. -/
def i64.encBytes_be (v : Int) : List Nat :=
  [asU8 (ashr v 56), asU8 (ashr v 48), asU8 (ashr v 40), asU8 (ashr v 32),
   asU8 (ashr v 24), asU8 (ashr v 16), asU8 (ashr v 8), asU8 v]

/-- Byte image of an i64 little-endian encode, by target index. -/
def i64.encBytes_le (v : Int) : List Nat :=
  [asU8 v, asU8 (ashr v 8), asU8 (ashr v 16), asU8 (ashr v 24),
   asU8 (ashr v 32), asU8 (ashr v 40), asU8 (ashr v 48), asU8 (ashr v 56)]

/-- Byte image of a bool encode. -/
def bool.encBytes (v : Bool) : List Nat := [if v then 1 else 0]

/-- Byte image of one scalar encode: the `width t` bytes that the store
sequence deposits at offsets 0..width, listed by target index. -/
def encBytes : (t : ScalarTy) → Order → Value t → List Nat
  | .u8, .be => u8.encBytes
  | .u8, .le => u8.encBytes
  | .i8, .be => i8.encBytes
  | .i8, .le => i8.encBytes
  | .u16, .be => u16.encBytes_be
  | .u16, .le => u16.encBytes_le
  | .i16, .be => i16.encBytes_be
  | .i16, .le => i16.encBytes_le
  | .u32, .be => u32.encBytes_be
  | .u32, .le => u32.encBytes_le
  | .i32, .be => i32.encBytes_be
  | .i32, .le => i32.encBytes_le
  | .u64, .be => u64.encBytes_be
  | .u64, .le => u64.encBytes_le
  | .i64, .be => i64.encBytes_be
  | .i64, .le => i64.encBytes_le
  | .f32, .be => u32.encBytes_be
  | .f32, .le => u32.encBytes_le
  | .f64, .be => u64.encBytes_be
  | .f64, .le => u64.encBytes_le
  | .bool, .be => bool.encBytes
  | .bool, .le => bool.encBytes

/-! Arithmetic helpers: bitwise or of disjoint fields is addition. -/

/-- Or of a multiple of `2 ^ k` with a value below `2 ^ k` is their sum. -/
lemma lor_eq_add_of_dvd {k a b : Nat} (ha : 2 ^ k ∣ a) (hb : b < 2 ^ k) :
    a ||| b = a + b := by
  obtain ⟨c, rfl⟩ := ha
  apply Nat.eq_of_testBit_eq
  intro j
  rw [Nat.testBit_lor]
  have hsl : 2 ^ k * c = c <<< k := by rw [Nat.shiftLeft_eq, Nat.mul_comm]
  rcases Nat.lt_or_ge j k with hj | hj
  · have h1 : Nat.testBit (2 ^ k * c) j = false := by
      rw [hsl, Nat.testBit_shiftLeft]
      simp [Nat.not_le.mpr hj]
    have h2 : Nat.testBit (2 ^ k * c + b) j = Nat.testBit b j := by
      rw [Nat.testBit_to_div_mod, Nat.testBit_to_div_mod]
      have hk : (2 : Nat) ^ k = 2 ^ j * 2 ^ (k - j) := by
        rw [← pow_add]
        congr 1
        omega
      have hkj : (2 : Nat) ^ (k - j) = 2 * 2 ^ (k - j - 1) := by
        rw [← pow_succ']
        congr 1
        omega
      rw [hk, Nat.mul_assoc, Nat.mul_add_div (Nat.two_pow_pos j), hkj, Nat.mul_assoc,
        Nat.mul_add_mod]
    rw [h1, h2, Bool.false_or]
  · have h1 : Nat.testBit b j = false :=
      Nat.testBit_lt_two_pow (lt_of_lt_of_le hb (Nat.pow_le_pow_right (by omega) hj))
    have h2 : Nat.testBit (2 ^ k * c + b) j = Nat.testBit (2 ^ k * c) j := by
      rw [Nat.testBit_to_div_mod, Nat.testBit_to_div_mod]
      have hk : (2 : Nat) ^ j = 2 ^ k * 2 ^ (j - k) := by
        rw [← pow_add]
        congr 1
        omega
      rw [hk, ← Nat.div_div_eq_div_mul, ← Nat.div_div_eq_div_mul,
        Nat.mul_add_div (Nat.two_pow_pos k), Nat.div_eq_of_lt hb, Nat.add_zero,
        Nat.mul_div_cancel_left c (Nat.two_pow_pos k)]
    rw [h1, h2, Bool.or_false]

/-- Two disjoint byte fields: or is addition. -/
lemma or2 {b0 b1 : Nat} (h1 : b1 < 256) :
    (b0 <<< 8) ||| b1 = b0 * 2 ^ 8 + b1 := by
  rw [Nat.shiftLeft_eq]
  exact lor_eq_add_of_dvd (dvd_mul_left _ _) (by omega)

/-- Four disjoint byte fields: or is addition. -/
lemma or4 {b0 b1 b2 b3 : Nat} (h1 : b1 < 256) (h2 : b2 < 256) (h3 : b3 < 256) :
    (b0 <<< 24) ||| (b1 <<< 16) ||| (b2 <<< 8) ||| b3 =
      b0 * 2 ^ 24 + b1 * 2 ^ 16 + b2 * 2 ^ 8 + b3 := by
  have e1 : (b0 <<< 24) ||| (b1 <<< 16) = b0 * 2 ^ 24 + b1 * 2 ^ 16 := by
    rw [Nat.shiftLeft_eq, Nat.shiftLeft_eq]
    exact lor_eq_add_of_dvd (k := 24) (dvd_mul_left _ _) (by omega)
  have e2 : b0 * 2 ^ 24 + b1 * 2 ^ 16 ||| (b2 <<< 8) =
      b0 * 2 ^ 24 + b1 * 2 ^ 16 + b2 * 2 ^ 8 := by
    rw [Nat.shiftLeft_eq]
    exact lor_eq_add_of_dvd (k := 16)
      (⟨b0 * 2 ^ 8 + b1, by ring⟩ : (2 : Nat) ^ 16 ∣ b0 * 2 ^ 24 + b1 * 2 ^ 16) (by omega)
  have e3 : b0 * 2 ^ 24 + b1 * 2 ^ 16 + b2 * 2 ^ 8 ||| b3 =
      b0 * 2 ^ 24 + b1 * 2 ^ 16 + b2 * 2 ^ 8 + b3 :=
    lor_eq_add_of_dvd (k := 8)
      (⟨b0 * 2 ^ 16 + b1 * 2 ^ 8 + b2, by ring⟩ :
        (2 : Nat) ^ 8 ∣ b0 * 2 ^ 24 + b1 * 2 ^ 16 + b2 * 2 ^ 8) (by omega)
  rw [e1, e2, e3]

/-- Eight disjoint byte fields: or is addition. -/
lemma or8 {b0 b1 b2 b3 b4 b5 b6 b7 : Nat} (h1 : b1 < 256) (h2 : b2 < 256) (h3 : b3 < 256)
    (h4 : b4 < 256) (h5 : b5 < 256) (h6 : b6 < 256) (h7 : b7 < 256) :
    (b0 <<< 56) ||| (b1 <<< 48) ||| (b2 <<< 40) ||| (b3 <<< 32) |||
      (b4 <<< 24) ||| (b5 <<< 16) ||| (b6 <<< 8) ||| b7 =
      b0 * 2 ^ 56 + b1 * 2 ^ 48 + b2 * 2 ^ 40 + b3 * 2 ^ 32 +
        b4 * 2 ^ 24 + b5 * 2 ^ 16 + b6 * 2 ^ 8 + b7 := by
  have e1 : (b0 <<< 56) ||| (b1 <<< 48) = b0 * 2 ^ 56 + b1 * 2 ^ 48 := by
    rw [Nat.shiftLeft_eq, Nat.shiftLeft_eq]
    exact lor_eq_add_of_dvd (k := 56) (dvd_mul_left _ _) (by omega)
  have e2 : b0 * 2 ^ 56 + b1 * 2 ^ 48 ||| (b2 <<< 40) =
      b0 * 2 ^ 56 + b1 * 2 ^ 48 + b2 * 2 ^ 40 := by
    rw [Nat.shiftLeft_eq]
    exact lor_eq_add_of_dvd (k := 48)
      (⟨b0 * 2 ^ 8 + b1, by ring⟩ : (2 : Nat) ^ 48 ∣ b0 * 2 ^ 56 + b1 * 2 ^ 48) (by omega)
  have e3 : b0 * 2 ^ 56 + b1 * 2 ^ 48 + b2 * 2 ^ 40 ||| (b3 <<< 32) =
      b0 * 2 ^ 56 + b1 * 2 ^ 48 + b2 * 2 ^ 40 + b3 * 2 ^ 32 := by
    rw [Nat.shiftLeft_eq]
    exact lor_eq_add_of_dvd (k := 40)
      (⟨b0 * 2 ^ 16 + b1 * 2 ^ 8 + b2, by ring⟩ :
        (2 : Nat) ^ 40 ∣ b0 * 2 ^ 56 + b1 * 2 ^ 48 + b2 * 2 ^ 40) (by omega)
  have e4 : b0 * 2 ^ 56 + b1 * 2 ^ 48 + b2 * 2 ^ 40 + b3 * 2 ^ 32 ||| (b4 <<< 24) =
      b0 * 2 ^ 56 + b1 * 2 ^ 48 + b2 * 2 ^ 40 + b3 * 2 ^ 32 + b4 * 2 ^ 24 := by
    rw [Nat.shiftLeft_eq]
    exact lor_eq_add_of_dvd (k := 32)
      (⟨b0 * 2 ^ 24 + b1 * 2 ^ 16 + b2 * 2 ^ 8 + b3, by ring⟩ :
        (2 : Nat) ^ 32 ∣ b0 * 2 ^ 56 + b1 * 2 ^ 48 + b2 * 2 ^ 40 + b3 * 2 ^ 32) (by omega)
  have e5 : b0 * 2 ^ 56 + b1 * 2 ^ 48 + b2 * 2 ^ 40 + b3 * 2 ^ 32 + b4 * 2 ^ 24 |||
      (b5 <<< 16) =
      b0 * 2 ^ 56 + b1 * 2 ^ 48 + b2 * 2 ^ 40 + b3 * 2 ^ 32 + b4 * 2 ^ 24 + b5 * 2 ^ 16 := by
    rw [Nat.shiftLeft_eq]
    exact lor_eq_add_of_dvd (k := 24)
      (⟨b0 * 2 ^ 32 + b1 * 2 ^ 24 + b2 * 2 ^ 16 + b3 * 2 ^ 8 + b4, by ring⟩ :
        (2 : Nat) ^ 24 ∣
          b0 * 2 ^ 56 + b1 * 2 ^ 48 + b2 * 2 ^ 40 + b3 * 2 ^ 32 + b4 * 2 ^ 24) (by omega)
  have e6 : b0 * 2 ^ 56 + b1 * 2 ^ 48 + b2 * 2 ^ 40 + b3 * 2 ^ 32 + b4 * 2 ^ 24 +
      b5 * 2 ^ 16 ||| (b6 <<< 8) =
      b0 * 2 ^ 56 + b1 * 2 ^ 48 + b2 * 2 ^ 40 + b3 * 2 ^ 32 + b4 * 2 ^ 24 + b5 * 2 ^ 16 +
        b6 * 2 ^ 8 := by
    rw [Nat.shiftLeft_eq]
    exact lor_eq_add_of_dvd (k := 16)
      (⟨b0 * 2 ^ 40 + b1 * 2 ^ 32 + b2 * 2 ^ 24 + b3 * 2 ^ 16 + b4 * 2 ^ 8 + b5, by ring⟩ :
        (2 : Nat) ^ 16 ∣
          b0 * 2 ^ 56 + b1 * 2 ^ 48 + b2 * 2 ^ 40 + b3 * 2 ^ 32 + b4 * 2 ^ 24 + b5 * 2 ^ 16)
      (by omega)
  have e7 : b0 * 2 ^ 56 + b1 * 2 ^ 48 + b2 * 2 ^ 40 + b3 * 2 ^ 32 + b4 * 2 ^ 24 +
      b5 * 2 ^ 16 + b6 * 2 ^ 8 ||| b7 =
      b0 * 2 ^ 56 + b1 * 2 ^ 48 + b2 * 2 ^ 40 + b3 * 2 ^ 32 + b4 * 2 ^ 24 + b5 * 2 ^ 16 +
        b6 * 2 ^ 8 + b7 :=
    lor_eq_add_of_dvd (k := 8)
      (⟨b0 * 2 ^ 48 + b1 * 2 ^ 40 + b2 * 2 ^ 32 + b3 * 2 ^ 24 + b4 * 2 ^ 16 + b5 * 2 ^ 8 + b6,
        by ring⟩ :
        (2 : Nat) ^ 8 ∣
          b0 * 2 ^ 56 + b1 * 2 ^ 48 + b2 * 2 ^ 40 + b3 * 2 ^ 32 + b4 * 2 ^ 24 + b5 * 2 ^ 16 +
            b6 * 2 ^ 8) (by omega)
  rw [e1, e2, e3, e4, e5, e6, e7]

/-- The low byte of a signed value is below 256. -/
lemma asU8_lt (v : Int) : asU8 v < 256 := by
  unfold asU8
  omega

/-! List helpers. -/

/-- A list of length at least 1 starts with one explicit element. -/
lemma exists_cons1 (l : List Nat) (h : 1 ≤ l.length) : ∃ b0 t, l = b0 :: t := by
  match l with
  | b0 :: t => exact ⟨b0, t, rfl⟩
  | [] => simp at h

/-- A list of length at least 2 starts with two explicit elements. -/
lemma exists_cons2 (l : List Nat) (h : 2 ≤ l.length) : ∃ b0 b1 t, l = b0 :: b1 :: t := by
  match l with
  | b0 :: b1 :: t => exact ⟨b0, b1, t, rfl⟩
  | [] | [_] => simp at h

/-- A list of length at least 4 starts with four explicit elements. -/
lemma exists_cons4 (l : List Nat) (h : 4 ≤ l.length) :
    ∃ b0 b1 b2 b3 t, l = b0 :: b1 :: b2 :: b3 :: t := by
  match l with
  | b0 :: b1 :: b2 :: b3 :: t => exact ⟨b0, b1, b2, b3, t, rfl⟩
  | [] | [_] | [_, _] | [_, _, _] => simp at h

/-- A list of length at least 8 starts with eight explicit elements. -/
lemma exists_cons8 (l : List Nat) (h : 8 ≤ l.length) :
    ∃ b0 b1 b2 b3 b4 b5 b6 b7 t, l = b0 :: b1 :: b2 :: b3 :: b4 :: b5 :: b6 :: b7 :: t := by
  match l with
  | b0 :: b1 :: b2 :: b3 :: b4 :: b5 :: b6 :: b7 :: t =>
    exact ⟨b0, b1, b2, b3, b4, b5, b6, b7, t, rfl⟩
  | [] | [_] | [_, _] | [_, _, _] | [_, _, _, _] | [_, _, _, _, _] | [_, _, _, _, _, _]
  | [_, _, _, _, _, _, _] => simp at h

/-- Indexing below `w` is determined by the `w`-prefix. -/
lemma getElem?_eq_of_take_eq {l1 l2 : List Nat} {w j : Nat}
    (h : l1.take w = l2.take w) (hj : j < w) : l1[j]? = l2[j]? := by
  have e1 : (l1.take w)[j]? = l1[j]? := by rw [List.getElem?_take, if_pos hj]
  have e2 : (l2.take w)[j]? = l2[j]? := by rw [List.getElem?_take, if_pos hj]
  rw [← e1, ← e2, h]

/-- Setting past a prefix acts on the suffix. -/
lemma set_append_at (P R : List Nat) (j x : Nat) :
    (P ++ R).set (P.length + j) x = P ++ R.set j x := by
  induction P with
  | nil => simp
  | cons p P ih =>
    have hidx : (p :: P).length + j = (P.length + j) + 1 := by
      simp
      omega
    rw [List.cons_append, hidx, List.set_cons_succ, ih, List.cons_append]

/-- Running a store sequence inside a view whose offset equals the length of
an untouched prefix acts on the suffix alone. -/
lemma execWritesIn_append (len : Nat) (ws : List (Nat × Nat)) :
    ∀ P R : List Nat, execWritesIn P.length len ws (P ++ R) =
      match execWritesIn 0 len ws R with
      | .ok s => .ok (P ++ s)
      | .error e => .error (P ++ e) := by
  induction ws with
  | nil =>
    intro P R
    rfl
  | cons jx rest ih =>
    intro P R
    obtain ⟨j, x⟩ := jx
    by_cases hj : j < len
    · simp only [execWritesIn, if_pos hj, Nat.zero_add]
      rw [set_append_at]
      exact ih P (R.set j x)
    · simp only [execWritesIn, if_neg hj]

/-- A store sequence holding an index at or beyond the view length faults. -/
lemma execWritesIn_error_of_big (len : Nat) :
    ∀ ws : List (Nat × Nat), (∃ p ∈ ws, len ≤ p.1) →
      ∀ off buf, ∃ e, execWritesIn off len ws buf = .error e
  | [], h => by
    rcases h with ⟨p, hp, _⟩
    simp at hp
  | (j, x) :: rest, h => by
    intro off buf
    by_cases hj : j < len
    · rcases h with ⟨p, hp, hge⟩
      rcases List.mem_cons.mp hp with heq | hmem
      · rw [heq] at hge
        omega
      · obtain ⟨e, he⟩ :=
          execWritesIn_error_of_big len rest ⟨p, hmem, hge⟩ off (buf.set (off + j) x)
        exact ⟨e, by simp only [execWritesIn, if_pos hj]; exact he⟩
    · exact ⟨buf, by simp only [execWritesIn, if_neg hj]⟩

/-- Binding a constant `none` continuation gives `none`. -/
lemma opt_bind_const_none (x : Option α) : (x.bind fun _ => (none : Option β)) = none := by
  cases x <;> rfl

/-- Every scalar width is positive. -/
lemma width_pos : ∀ t : ScalarTy, 0 < width t := by
  intro t
  cases t <;> decide

/-- The per-scalar codec facts every claim is assembled from, stated over the
dispatched entry points for one scalar type and byte order. -/
structure CodecFacts (t : ScalarTy) (ord : Order) : Prop where
  bytes_len : ∀ v, (encBytes t ord v).length = width t
  enc_shape : ∀ v len (R : List Nat), width t ≤ len → width t ≤ R.length →
    execWritesIn 0 len (writeProg t ord v) R = .ok (encBytes t ord v ++ R.drop (width t))
  dec_block : ∀ v, valid t v → ∀ rest, read t ord (encBytes t ord v ++ rest) = some v
  dec_total : ∀ l, width t ≤ l.length → ∃ x, read t ord l = some x
  dec_short : ∀ l, l.length < width t → read t ord l = none
  dec_take : ∀ l1 l2, l1.take (width t) = l2.take (width t) → read t ord l1 = read t ord l2
  wprog_max : ∀ v, ∃ x, (width t - 1, x) ∈ writeProg t ord v
  le_first : ord = Order.le → ∀ v, ∃ x rest, writeProg t ord v = (width t - 1, x) :: rest

/-- Round-trip core for u8, big-endian. -/
lemma u8_dec_block_be (v : Nat) (rest : List Nat) :
    u8.from_u8_be (u8.encBytes v ++ rest) = some v := by
  simp only [u8.encBytes, List.cons_append, u8.from_u8_be, List.getElem?_cons_zero,
    Bind.bind, Option.bind, Pure.pure]

/-- Round-trip core for u8, little-endian. -/
lemma u8_dec_block_le (v : Nat) (rest : List Nat) :
    u8.from_u8_le (u8.encBytes v ++ rest) = some v := by
  simp only [u8.encBytes, List.cons_append, u8.from_u8_le, List.getElem?_cons_zero,
    Bind.bind, Option.bind, Pure.pure]

/-- Round-trip core for i8, big-endian. -/
lemma i8_dec_block_be (v : Int) (h1 : -(2 ^ 7) ≤ v) (h2 : v < 2 ^ 7) (rest : List Nat) :
    i8.from_u8_be (i8.encBytes v ++ rest) = some v := by
  simp only [i8.encBytes, List.cons_append, i8.from_u8_be, List.getElem?_cons_zero,
    Bind.bind, Option.bind, Pure.pure, Option.some.injEq, toSigned, asU8]
  split <;> omega

/-- Round-trip core for i8, little-endian. -/
lemma i8_dec_block_le (v : Int) (h1 : -(2 ^ 7) ≤ v) (h2 : v < 2 ^ 7) (rest : List Nat) :
    i8.from_u8_le (i8.encBytes v ++ rest) = some v := by
  simp only [i8.encBytes, List.cons_append, i8.from_u8_le, List.getElem?_cons_zero,
    Bind.bind, Option.bind, Pure.pure, Option.some.injEq, toSigned, asU8]
  split <;> omega

/-- Round-trip core for u16, big-endian. -/
lemma u16_dec_block_be (v : Nat) (hv : v < 2 ^ 16) (rest : List Nat) :
    u16.from_u8_be (u16.encBytes_be v ++ rest) = some v := by
  simp only [u16.encBytes_be, List.cons_append, u16.from_u8_be, List.getElem?_cons_zero,
    List.getElem?_cons_succ, Bind.bind, Option.bind, Pure.pure, Option.some.injEq]
  rw [or2 (by omega)]
  omega

/-- Round-trip core for u16, little-endian. -/
lemma u16_dec_block_le (v : Nat) (hv : v < 2 ^ 16) (rest : List Nat) :
    u16.from_u8_le (u16.encBytes_le v ++ rest) = some v := by
  simp only [u16.encBytes_le, List.cons_append, u16.from_u8_le, List.getElem?_cons_zero,
    List.getElem?_cons_succ, Bind.bind, Option.bind, Pure.pure, Option.some.injEq]
  rw [or2 (by omega)]
  omega

/-- Round-trip core for i16, big-endian. -/
lemma i16_dec_block_be (v : Int) (h1 : -(2 ^ 15) ≤ v) (h2 : v < 2 ^ 15) (rest : List Nat) :
    i16.from_u8_be (i16.encBytes_be v ++ rest) = some v := by
  simp only [i16.encBytes_be, List.cons_append, i16.from_u8_be, List.getElem?_cons_zero,
    List.getElem?_cons_succ, Bind.bind, Option.bind, Pure.pure, Option.some.injEq]
  rw [or2 (asU8_lt v)]
  simp only [toSigned, asU8, ashr]
  split <;> omega

/-- Round-trip core for i16, little-endian. -/
lemma i16_dec_block_le (v : Int) (h1 : -(2 ^ 15) ≤ v) (h2 : v < 2 ^ 15) (rest : List Nat) :
    i16.from_u8_le (i16.encBytes_le v ++ rest) = some v := by
  simp only [i16.encBytes_le, List.cons_append, i16.from_u8_le, List.getElem?_cons_zero,
    List.getElem?_cons_succ, Bind.bind, Option.bind, Pure.pure, Option.some.injEq]
  rw [or2 (asU8_lt v)]
  simp only [toSigned, asU8, ashr]
  split <;> omega

/-- Round-trip core for u32, big-endian. -/
lemma u32_dec_block_be (v : Nat) (hv : v < 2 ^ 32) (rest : List Nat) :
    u32.from_u8_be (u32.encBytes_be v ++ rest) = some v := by
  simp only [u32.encBytes_be, List.cons_append, u32.from_u8_be, List.getElem?_cons_zero,
    List.getElem?_cons_succ, Bind.bind, Option.bind, Pure.pure, Option.some.injEq]
  rw [or4 (by omega) (by omega) (by omega)]
  omega

/-- Round-trip core for u32, little-endian. -/
lemma u32_dec_block_le (v : Nat) (hv : v < 2 ^ 32) (rest : List Nat) :
    u32.from_u8_le (u32.encBytes_le v ++ rest) = some v := by
  simp only [u32.encBytes_le, List.cons_append, u32.from_u8_le, List.getElem?_cons_zero,
    List.getElem?_cons_succ, Bind.bind, Option.bind, Pure.pure, Option.some.injEq]
  rw [or4 (by omega) (by omega) (by omega)]
  omega

/-- Round-trip core for i32, big-endian. -/
lemma i32_dec_block_be (v : Int) (h1 : -(2 ^ 31) ≤ v) (h2 : v < 2 ^ 31) (rest : List Nat) :
    i32.from_u8_be (i32.encBytes_be v ++ rest) = some v := by
  simp only [i32.encBytes_be, List.cons_append, i32.from_u8_be, List.getElem?_cons_zero,
    List.getElem?_cons_succ, Bind.bind, Option.bind, Pure.pure, Option.some.injEq]
  rw [or4 (asU8_lt _) (asU8_lt _) (asU8_lt _)]
  simp only [toSigned, asU8, ashr]
  split <;> omega

/-- Round-trip core for i32, little-endian. -/
lemma i32_dec_block_le (v : Int) (h1 : -(2 ^ 31) ≤ v) (h2 : v < 2 ^ 31) (rest : List Nat) :
    i32.from_u8_le (i32.encBytes_le v ++ rest) = some v := by
  simp only [i32.encBytes_le, List.cons_append, i32.from_u8_le, List.getElem?_cons_zero,
    List.getElem?_cons_succ, Bind.bind, Option.bind, Pure.pure, Option.some.injEq]
  rw [or4 (asU8_lt _) (asU8_lt _) (asU8_lt _)]
  simp only [toSigned, asU8, ashr]
  split <;> omega

/-- Round-trip core for u64, big-endian. -/
lemma u64_dec_block_be (v : Nat) (hv : v < 2 ^ 64) (rest : List Nat) :
    u64.from_u8_be (u64.encBytes_be v ++ rest) = some v := by
  simp only [u64.encBytes_be, List.cons_append, u64.from_u8_be, List.getElem?_cons_zero,
    List.getElem?_cons_succ, Bind.bind, Option.bind, Pure.pure, Option.some.injEq]
  rw [or8 (by omega) (by omega) (by omega) (by omega) (by omega) (by omega) (by omega)]
  omega

/-- Round-trip core for u64, little-endian. -/
lemma u64_dec_block_le (v : Nat) (hv : v < 2 ^ 64) (rest : List Nat) :
    u64.from_u8_le (u64.encBytes_le v ++ rest) = some v := by
  simp only [u64.encBytes_le, List.cons_append, u64.from_u8_le, List.getElem?_cons_zero,
    List.getElem?_cons_succ, Bind.bind, Option.bind, Pure.pure, Option.some.injEq]
  rw [or8 (by omega) (by omega) (by omega) (by omega) (by omega) (by omega) (by omega)]
  omega

/-- Round-trip core for i64, big-endian. -/
lemma i64_dec_block_be (v : Int) (h1 : -(2 ^ 63) ≤ v) (h2 : v < 2 ^ 63) (rest : List Nat) :
    i64.from_u8_be (i64.encBytes_be v ++ rest) = some v := by
  simp only [i64.encBytes_be, List.cons_append, i64.from_u8_be, List.getElem?_cons_zero,
    List.getElem?_cons_succ, Bind.bind, Option.bind, Pure.pure, Option.some.injEq]
  rw [or8 (asU8_lt _) (asU8_lt _) (asU8_lt _) (asU8_lt _) (asU8_lt _) (asU8_lt _) (asU8_lt _)]
  have e56 : asU8 (ashr v 56) = (v % 2 ^ 64).toNat / 2 ^ 56 % 256 := by
    simp only [asU8, ashr]
    omega
  have e48 : asU8 (ashr v 48) = (v % 2 ^ 64).toNat / 2 ^ 48 % 256 := by
    simp only [asU8, ashr]
    omega
  have e40 : asU8 (ashr v 40) = (v % 2 ^ 64).toNat / 2 ^ 40 % 256 := by
    simp only [asU8, ashr]
    omega
  have e32 : asU8 (ashr v 32) = (v % 2 ^ 64).toNat / 2 ^ 32 % 256 := by
    simp only [asU8, ashr]
    omega
  have e24 : asU8 (ashr v 24) = (v % 2 ^ 64).toNat / 2 ^ 24 % 256 := by
    simp only [asU8, ashr]
    omega
  have e16 : asU8 (ashr v 16) = (v % 2 ^ 64).toNat / 2 ^ 16 % 256 := by
    simp only [asU8, ashr]
    omega
  have e8 : asU8 (ashr v 8) = (v % 2 ^ 64).toNat / 2 ^ 8 % 256 := by
    simp only [asU8, ashr]
    omega
  have e0 : asU8 v = (v % 2 ^ 64).toNat % 256 := by
    simp only [asU8]
    omega
  rw [e56, e48, e40, e32, e24, e16, e8, e0]
  have hsum : (v % 2 ^ 64).toNat / 2 ^ 56 % 256 * 2 ^ 56 +
      (v % 2 ^ 64).toNat / 2 ^ 48 % 256 * 2 ^ 48 +
      (v % 2 ^ 64).toNat / 2 ^ 40 % 256 * 2 ^ 40 +
      (v % 2 ^ 64).toNat / 2 ^ 32 % 256 * 2 ^ 32 +
      (v % 2 ^ 64).toNat / 2 ^ 24 % 256 * 2 ^ 24 +
      (v % 2 ^ 64).toNat / 2 ^ 16 % 256 * 2 ^ 16 +
      (v % 2 ^ 64).toNat / 2 ^ 8 % 256 * 2 ^ 8 + (v % 2 ^ 64).toNat % 256 =
      (v % 2 ^ 64).toNat := by
    omega
  rw [hsum]
  simp only [toSigned]
  split <;> omega

/-- Round-trip core for i64, little-endian. -/
lemma i64_dec_block_le (v : Int) (h1 : -(2 ^ 63) ≤ v) (h2 : v < 2 ^ 63) (rest : List Nat) :
    i64.from_u8_le (i64.encBytes_le v ++ rest) = some v := by
  simp only [i64.encBytes_le, List.cons_append, i64.from_u8_le, List.getElem?_cons_zero,
    List.getElem?_cons_succ, Bind.bind, Option.bind, Pure.pure, Option.some.injEq]
  rw [or8 (asU8_lt _) (asU8_lt _) (asU8_lt _) (asU8_lt _) (asU8_lt _) (asU8_lt _) (asU8_lt _)]
  have e56 : asU8 (ashr v 56) = (v % 2 ^ 64).toNat / 2 ^ 56 % 256 := by
    simp only [asU8, ashr]
    omega
  have e48 : asU8 (ashr v 48) = (v % 2 ^ 64).toNat / 2 ^ 48 % 256 := by
    simp only [asU8, ashr]
    omega
  have e40 : asU8 (ashr v 40) = (v % 2 ^ 64).toNat / 2 ^ 40 % 256 := by
    simp only [asU8, ashr]
    omega
  have e32 : asU8 (ashr v 32) = (v % 2 ^ 64).toNat / 2 ^ 32 % 256 := by
    simp only [asU8, ashr]
    omega
  have e24 : asU8 (ashr v 24) = (v % 2 ^ 64).toNat / 2 ^ 24 % 256 := by
    simp only [asU8, ashr]
    omega
  have e16 : asU8 (ashr v 16) = (v % 2 ^ 64).toNat / 2 ^ 16 % 256 := by
    simp only [asU8, ashr]
    omega
  have e8 : asU8 (ashr v 8) = (v % 2 ^ 64).toNat / 2 ^ 8 % 256 := by
    simp only [asU8, ashr]
    omega
  have e0 : asU8 v = (v % 2 ^ 64).toNat % 256 := by
    simp only [asU8]
    omega
  rw [e56, e48, e40, e32, e24, e16, e8, e0]
  have hsum : (v % 2 ^ 64).toNat / 2 ^ 56 % 256 * 2 ^ 56 +
      (v % 2 ^ 64).toNat / 2 ^ 48 % 256 * 2 ^ 48 +
      (v % 2 ^ 64).toNat / 2 ^ 40 % 256 * 2 ^ 40 +
      (v % 2 ^ 64).toNat / 2 ^ 32 % 256 * 2 ^ 32 +
      (v % 2 ^ 64).toNat / 2 ^ 24 % 256 * 2 ^ 24 +
      (v % 2 ^ 64).toNat / 2 ^ 16 % 256 * 2 ^ 16 +
      (v % 2 ^ 64).toNat / 2 ^ 8 % 256 * 2 ^ 8 + (v % 2 ^ 64).toNat % 256 =
      (v % 2 ^ 64).toNat := by
    omega
  rw [hsum]
  simp only [toSigned]
  split <;> omega

/-- Round-trip core for bool, big-endian. -/
lemma bool_dec_block_be (v : Bool) (rest : List Nat) :
    bool.from_u8_be (bool.encBytes v ++ rest) = some v := by
  cases v <;> simp [bool.encBytes, bool.from_u8_be]

/-- Round-trip core for bool, little-endian. -/
lemma bool_dec_block_le (v : Bool) (rest : List Nat) :
    bool.from_u8_le (bool.encBytes v ++ rest) = some v := by
  cases v <;> simp [bool.encBytes, bool.from_u8_le]

/-- Codec facts for u8, big-endian. -/
lemma codecFacts_u8_be : CodecFacts .u8 .be where
  bytes_len := fun _ => rfl
  enc_shape := by
    intro v len R hlen hR
    have hw : width ScalarTy.u8 = 1 := rfl
    rw [hw] at hlen hR
    obtain ⟨r0, t, rfl⟩ := exists_cons1 R hR
    simp only [writeProg, u8.to_u8_be_writes, execWritesIn]
    rw [if_pos (by omega : (0 : Nat) < len)]
    rfl
  dec_block := fun v _ rest => u8_dec_block_be v rest
  dec_total := by
    intro l hl
    have hw : width ScalarTy.u8 = 1 := rfl
    rw [hw] at hl
    obtain ⟨b0, t, rfl⟩ := exists_cons1 l hl
    refine ⟨b0, ?_⟩
    simp only [read, u8.from_u8_be, List.getElem?_cons_zero, List.getElem?_cons_succ,
      Bind.bind, Option.bind, Pure.pure]
  dec_short := by
    intro l hl
    have hw : width ScalarTy.u8 = 1 := rfl
    rw [hw] at hl
    have hnone : l[0]? = none := List.getElem?_eq_none (by omega)
    simp only [read, u8.from_u8_be, Bind.bind, hnone, Option.bind]
  dec_take := by
    intro l1 l2 h
    have e0 := getElem?_eq_of_take_eq h (by omega : (0 : Nat) < 1)
    simp only [read, u8.from_u8_be, e0]
  wprog_max := by
    intro v
    exact ⟨v, by simp [writeProg, u8.to_u8_be_writes]⟩
  le_first := by
    intro h
    cases h

/-- Codec facts for u8, little-endian. -/
lemma codecFacts_u8_le : CodecFacts .u8 .le where
  bytes_len := fun _ => rfl
  enc_shape := by
    intro v len R hlen hR
    have hw : width ScalarTy.u8 = 1 := rfl
    rw [hw] at hlen hR
    obtain ⟨r0, t, rfl⟩ := exists_cons1 R hR
    simp only [writeProg, u8.to_u8_le_writes, execWritesIn]
    rw [if_pos (by omega : (0 : Nat) < len)]
    rfl
  dec_block := fun v _ rest => u8_dec_block_le v rest
  dec_total := by
    intro l hl
    have hw : width ScalarTy.u8 = 1 := rfl
    rw [hw] at hl
    obtain ⟨b0, t, rfl⟩ := exists_cons1 l hl
    refine ⟨b0, ?_⟩
    simp only [read, u8.from_u8_le, List.getElem?_cons_zero, List.getElem?_cons_succ,
      Bind.bind, Option.bind, Pure.pure]
  dec_short := by
    intro l hl
    have hw : width ScalarTy.u8 = 1 := rfl
    rw [hw] at hl
    have hnone : l[0]? = none := List.getElem?_eq_none (by omega)
    simp only [read, u8.from_u8_le, Bind.bind, hnone, Option.bind]
  dec_take := by
    intro l1 l2 h
    have e0 := getElem?_eq_of_take_eq h (by omega : (0 : Nat) < 1)
    simp only [read, u8.from_u8_le, e0]
  wprog_max := by
    intro v
    exact ⟨v, by simp [writeProg, u8.to_u8_le_writes]⟩
  le_first := by
    intro _ v
    exact ⟨_, _, rfl⟩

/-- Codec facts for i8, big-endian. -/
lemma codecFacts_i8_be : CodecFacts .i8 .be where
  bytes_len := fun _ => rfl
  enc_shape := by
    intro v len R hlen hR
    have hw : width ScalarTy.i8 = 1 := rfl
    rw [hw] at hlen hR
    obtain ⟨r0, t, rfl⟩ := exists_cons1 R hR
    simp only [writeProg, i8.to_u8_be_writes, execWritesIn]
    rw [if_pos (by omega : (0 : Nat) < len)]
    rfl
  dec_block := fun v hv rest => i8_dec_block_be v hv.1 hv.2 rest
  dec_total := by
    intro l hl
    have hw : width ScalarTy.i8 = 1 := rfl
    rw [hw] at hl
    obtain ⟨b0, t, rfl⟩ := exists_cons1 l hl
    refine ⟨toSigned 8 b0, ?_⟩
    simp only [read, i8.from_u8_be, List.getElem?_cons_zero, List.getElem?_cons_succ,
      Bind.bind, Option.bind, Pure.pure]
  dec_short := by
    intro l hl
    have hw : width ScalarTy.i8 = 1 := rfl
    rw [hw] at hl
    have hnone : l[0]? = none := List.getElem?_eq_none (by omega)
    simp only [read, i8.from_u8_be, Bind.bind, hnone, Option.bind]
  dec_take := by
    intro l1 l2 h
    have e0 := getElem?_eq_of_take_eq h (by omega : (0 : Nat) < 1)
    simp only [read, i8.from_u8_be, e0]
  wprog_max := by
    intro v
    exact ⟨asU8 v, by simp [writeProg, i8.to_u8_be_writes]⟩
  le_first := by
    intro h
    cases h

/-- Codec facts for i8, little-endian. -/
lemma codecFacts_i8_le : CodecFacts .i8 .le where
  bytes_len := fun _ => rfl
  enc_shape := by
    intro v len R hlen hR
    have hw : width ScalarTy.i8 = 1 := rfl
    rw [hw] at hlen hR
    obtain ⟨r0, t, rfl⟩ := exists_cons1 R hR
    simp only [writeProg, i8.to_u8_le_writes, execWritesIn]
    rw [if_pos (by omega : (0 : Nat) < len)]
    rfl
  dec_block := fun v hv rest => i8_dec_block_le v hv.1 hv.2 rest
  dec_total := by
    intro l hl
    have hw : width ScalarTy.i8 = 1 := rfl
    rw [hw] at hl
    obtain ⟨b0, t, rfl⟩ := exists_cons1 l hl
    refine ⟨toSigned 8 b0, ?_⟩
    simp only [read, i8.from_u8_le, List.getElem?_cons_zero, List.getElem?_cons_succ,
      Bind.bind, Option.bind, Pure.pure]
  dec_short := by
    intro l hl
    have hw : width ScalarTy.i8 = 1 := rfl
    rw [hw] at hl
    have hnone : l[0]? = none := List.getElem?_eq_none (by omega)
    simp only [read, i8.from_u8_le, Bind.bind, hnone, Option.bind]
  dec_take := by
    intro l1 l2 h
    have e0 := getElem?_eq_of_take_eq h (by omega : (0 : Nat) < 1)
    simp only [read, i8.from_u8_le, e0]
  wprog_max := by
    intro v
    exact ⟨asU8 v, by simp [writeProg, i8.to_u8_le_writes]⟩
  le_first := by
    intro _ v
    exact ⟨_, _, rfl⟩

/-- Codec facts for u16, big-endian. -/
lemma codecFacts_u16_be : CodecFacts .u16 .be where
  bytes_len := fun _ => rfl
  enc_shape := by
    intro v len R hlen hR
    have hw : width ScalarTy.u16 = 2 := rfl
    rw [hw] at hlen hR
    obtain ⟨r0, r1, t, rfl⟩ := exists_cons2 R hR
    simp only [writeProg, u16.to_u8_be_writes, execWritesIn]
    rw [if_pos (by omega : (0 : Nat) < len), if_pos (by omega : (1 : Nat) < len)]
    rfl
  dec_block := fun v hv rest => u16_dec_block_be v hv rest
  dec_total := by
    intro l hl
    have hw : width ScalarTy.u16 = 2 := rfl
    rw [hw] at hl
    obtain ⟨b0, b1, t, rfl⟩ := exists_cons2 l hl
    refine ⟨(b0 <<< 8) ||| b1, ?_⟩
    simp only [read, u16.from_u8_be, List.getElem?_cons_zero, List.getElem?_cons_succ,
      Bind.bind, Option.bind, Pure.pure]
  dec_short := by
    intro l hl
    have hw : width ScalarTy.u16 = 2 := rfl
    rw [hw] at hl
    have hnone : l[1]? = none := List.getElem?_eq_none (by omega)
    simp only [read, u16.from_u8_be, Bind.bind, hnone, Option.bind]
    rcases l[0]? with _ | b0 <;> rfl
  dec_take := by
    intro l1 l2 h
    have e0 := getElem?_eq_of_take_eq h (by omega : (0 : Nat) < 2)
    have e1 := getElem?_eq_of_take_eq h (by omega : (1 : Nat) < 2)
    simp only [read, u16.from_u8_be, e0, e1]
  wprog_max := by
    intro v
    exact ⟨v % 256, by simp [writeProg, u16.to_u8_be_writes]⟩
  le_first := by
    intro h
    cases h

/-- Codec facts for u16, little-endian. -/
lemma codecFacts_u16_le : CodecFacts .u16 .le where
  bytes_len := fun _ => rfl
  enc_shape := by
    intro v len R hlen hR
    have hw : width ScalarTy.u16 = 2 := rfl
    rw [hw] at hlen hR
    obtain ⟨r0, r1, t, rfl⟩ := exists_cons2 R hR
    simp only [writeProg, u16.to_u8_le_writes, execWritesIn]
    rw [if_pos (by omega : (1 : Nat) < len), if_pos (by omega : (0 : Nat) < len)]
    rfl
  dec_block := fun v hv rest => u16_dec_block_le v hv rest
  dec_total := by
    intro l hl
    have hw : width ScalarTy.u16 = 2 := rfl
    rw [hw] at hl
    obtain ⟨b0, b1, t, rfl⟩ := exists_cons2 l hl
    refine ⟨(b1 <<< 8) ||| b0, ?_⟩
    simp only [read, u16.from_u8_le, List.getElem?_cons_zero, List.getElem?_cons_succ,
      Bind.bind, Option.bind, Pure.pure]
  dec_short := by
    intro l hl
    have hw : width ScalarTy.u16 = 2 := rfl
    rw [hw] at hl
    have hnone : l[1]? = none := List.getElem?_eq_none (by omega)
    simp only [read, u16.from_u8_le, Bind.bind, hnone, Option.bind]
    rcases l[0]? with _ | b0 <;> rfl
  dec_take := by
    intro l1 l2 h
    have e0 := getElem?_eq_of_take_eq h (by omega : (0 : Nat) < 2)
    have e1 := getElem?_eq_of_take_eq h (by omega : (1 : Nat) < 2)
    simp only [read, u16.from_u8_le, e0, e1]
  wprog_max := by
    intro v
    exact ⟨(v >>> 8) % 256, by simp [writeProg, u16.to_u8_le_writes]⟩
  le_first := by
    intro _ v
    exact ⟨_, _, rfl⟩

/-- Codec facts for i16, big-endian. -/
lemma codecFacts_i16_be : CodecFacts .i16 .be where
  bytes_len := fun _ => rfl
  enc_shape := by
    intro v len R hlen hR
    have hw : width ScalarTy.i16 = 2 := rfl
    rw [hw] at hlen hR
    obtain ⟨r0, r1, t, rfl⟩ := exists_cons2 R hR
    simp only [writeProg, i16.to_u8_be_writes, execWritesIn]
    rw [if_pos (by omega : (0 : Nat) < len), if_pos (by omega : (1 : Nat) < len)]
    rfl
  dec_block := fun v hv rest => i16_dec_block_be v hv.1 hv.2 rest
  dec_total := by
    intro l hl
    have hw : width ScalarTy.i16 = 2 := rfl
    rw [hw] at hl
    obtain ⟨b0, b1, t, rfl⟩ := exists_cons2 l hl
    refine ⟨toSigned 16 ((b0 <<< 8) ||| b1), ?_⟩
    simp only [read, i16.from_u8_be, List.getElem?_cons_zero, List.getElem?_cons_succ,
      Bind.bind, Option.bind, Pure.pure]
  dec_short := by
    intro l hl
    have hw : width ScalarTy.i16 = 2 := rfl
    rw [hw] at hl
    have hnone : l[1]? = none := List.getElem?_eq_none (by omega)
    simp only [read, i16.from_u8_be, Bind.bind, hnone, Option.bind]
    rcases l[0]? with _ | b0 <;> rfl
  dec_take := by
    intro l1 l2 h
    have e0 := getElem?_eq_of_take_eq h (by omega : (0 : Nat) < 2)
    have e1 := getElem?_eq_of_take_eq h (by omega : (1 : Nat) < 2)
    simp only [read, i16.from_u8_be, e0, e1]
  wprog_max := by
    intro v
    exact ⟨asU8 v, by simp [writeProg, i16.to_u8_be_writes]⟩
  le_first := by
    intro h
    cases h

/-- Codec facts for i16, little-endian. -/
lemma codecFacts_i16_le : CodecFacts .i16 .le where
  bytes_len := fun _ => rfl
  enc_shape := by
    intro v len R hlen hR
    have hw : width ScalarTy.i16 = 2 := rfl
    rw [hw] at hlen hR
    obtain ⟨r0, r1, t, rfl⟩ := exists_cons2 R hR
    simp only [writeProg, i16.to_u8_le_writes, execWritesIn]
    rw [if_pos (by omega : (1 : Nat) < len), if_pos (by omega : (0 : Nat) < len)]
    rfl
  dec_block := fun v hv rest => i16_dec_block_le v hv.1 hv.2 rest
  dec_total := by
    intro l hl
    have hw : width ScalarTy.i16 = 2 := rfl
    rw [hw] at hl
    obtain ⟨b0, b1, t, rfl⟩ := exists_cons2 l hl
    refine ⟨toSigned 16 ((b1 <<< 8) ||| b0), ?_⟩
    simp only [read, i16.from_u8_le, List.getElem?_cons_zero, List.getElem?_cons_succ,
      Bind.bind, Option.bind, Pure.pure]
  dec_short := by
    intro l hl
    have hw : width ScalarTy.i16 = 2 := rfl
    rw [hw] at hl
    have hnone : l[1]? = none := List.getElem?_eq_none (by omega)
    simp only [read, i16.from_u8_le, Bind.bind, hnone, Option.bind]
    rcases l[0]? with _ | b0 <;> rfl
  dec_take := by
    intro l1 l2 h
    have e0 := getElem?_eq_of_take_eq h (by omega : (0 : Nat) < 2)
    have e1 := getElem?_eq_of_take_eq h (by omega : (1 : Nat) < 2)
    simp only [read, i16.from_u8_le, e0, e1]
  wprog_max := by
    intro v
    exact ⟨asU8 (ashr v 8), by simp [writeProg, i16.to_u8_le_writes]⟩
  le_first := by
    intro _ v
    exact ⟨_, _, rfl⟩

/-- Codec facts for u32, big-endian. -/
lemma codecFacts_u32_be : CodecFacts .u32 .be where
  bytes_len := fun _ => rfl
  enc_shape := by
    intro v len R hlen hR
    have hw : width ScalarTy.u32 = 4 := rfl
    rw [hw] at hlen hR
    obtain ⟨r0, r1, r2, r3, t, rfl⟩ := exists_cons4 R hR
    simp only [writeProg, u32.to_u8_be_writes, execWritesIn]
    rw [if_pos (by omega : (0 : Nat) < len), if_pos (by omega : (1 : Nat) < len), if_pos (by omega : (2 : Nat) < len), if_pos (by omega : (3 : Nat) < len)]
    rfl
  dec_block := fun v hv rest => u32_dec_block_be v hv rest
  dec_total := by
    intro l hl
    have hw : width ScalarTy.u32 = 4 := rfl
    rw [hw] at hl
    obtain ⟨b0, b1, b2, b3, t, rfl⟩ := exists_cons4 l hl
    refine ⟨(b0 <<< 24) ||| (b1 <<< 16) ||| (b2 <<< 8) ||| b3, ?_⟩
    simp only [read, u32.from_u8_be, List.getElem?_cons_zero, List.getElem?_cons_succ,
      Bind.bind, Option.bind, Pure.pure]
  dec_short := by
    intro l hl
    have hw : width ScalarTy.u32 = 4 := rfl
    rw [hw] at hl
    have hnone : l[3]? = none := List.getElem?_eq_none (by omega)
    simp only [read, u32.from_u8_be, Bind.bind, hnone, Option.bind]
    rcases l[0]? with _ | b0 <;> rcases l[1]? with _ | b1 <;> rcases l[2]? with _ | b2 <;> rfl
  dec_take := by
    intro l1 l2 h
    have e0 := getElem?_eq_of_take_eq h (by omega : (0 : Nat) < 4)
    have e1 := getElem?_eq_of_take_eq h (by omega : (1 : Nat) < 4)
    have e2 := getElem?_eq_of_take_eq h (by omega : (2 : Nat) < 4)
    have e3 := getElem?_eq_of_take_eq h (by omega : (3 : Nat) < 4)
    simp only [read, u32.from_u8_be, e0, e1, e2, e3]
  wprog_max := by
    intro v
    exact ⟨v % 256, by simp [writeProg, u32.to_u8_be_writes]⟩
  le_first := by
    intro h
    cases h

/-- Codec facts for u32, little-endian. -/
lemma codecFacts_u32_le : CodecFacts .u32 .le where
  bytes_len := fun _ => rfl
  enc_shape := by
    intro v len R hlen hR
    have hw : width ScalarTy.u32 = 4 := rfl
    rw [hw] at hlen hR
    obtain ⟨r0, r1, r2, r3, t, rfl⟩ := exists_cons4 R hR
    simp only [writeProg, u32.to_u8_le_writes, execWritesIn]
    rw [if_pos (by omega : (3 : Nat) < len), if_pos (by omega : (2 : Nat) < len), if_pos (by omega : (1 : Nat) < len), if_pos (by omega : (0 : Nat) < len)]
    rfl
  dec_block := fun v hv rest => u32_dec_block_le v hv rest
  dec_total := by
    intro l hl
    have hw : width ScalarTy.u32 = 4 := rfl
    rw [hw] at hl
    obtain ⟨b0, b1, b2, b3, t, rfl⟩ := exists_cons4 l hl
    refine ⟨(b3 <<< 24) ||| (b2 <<< 16) ||| (b1 <<< 8) ||| b0, ?_⟩
    simp only [read, u32.from_u8_le, List.getElem?_cons_zero, List.getElem?_cons_succ,
      Bind.bind, Option.bind, Pure.pure]
  dec_short := by
    intro l hl
    have hw : width ScalarTy.u32 = 4 := rfl
    rw [hw] at hl
    have hnone : l[3]? = none := List.getElem?_eq_none (by omega)
    simp only [read, u32.from_u8_le, Bind.bind, hnone, Option.bind]
    rcases l[0]? with _ | b0 <;> rcases l[1]? with _ | b1 <;> rcases l[2]? with _ | b2 <;> rfl
  dec_take := by
    intro l1 l2 h
    have e0 := getElem?_eq_of_take_eq h (by omega : (0 : Nat) < 4)
    have e1 := getElem?_eq_of_take_eq h (by omega : (1 : Nat) < 4)
    have e2 := getElem?_eq_of_take_eq h (by omega : (2 : Nat) < 4)
    have e3 := getElem?_eq_of_take_eq h (by omega : (3 : Nat) < 4)
    simp only [read, u32.from_u8_le, e0, e1, e2, e3]
  wprog_max := by
    intro v
    exact ⟨(v >>> 24) % 256, by simp [writeProg, u32.to_u8_le_writes]⟩
  le_first := by
    intro _ v
    exact ⟨_, _, rfl⟩

/-- Codec facts for i32, big-endian. -/
lemma codecFacts_i32_be : CodecFacts .i32 .be where
  bytes_len := fun _ => rfl
  enc_shape := by
    intro v len R hlen hR
    have hw : width ScalarTy.i32 = 4 := rfl
    rw [hw] at hlen hR
    obtain ⟨r0, r1, r2, r3, t, rfl⟩ := exists_cons4 R hR
    simp only [writeProg, i32.to_u8_be_writes, execWritesIn]
    rw [if_pos (by omega : (0 : Nat) < len), if_pos (by omega : (1 : Nat) < len), if_pos (by omega : (2 : Nat) < len), if_pos (by omega : (3 : Nat) < len)]
    rfl
  dec_block := fun v hv rest => i32_dec_block_be v hv.1 hv.2 rest
  dec_total := by
    intro l hl
    have hw : width ScalarTy.i32 = 4 := rfl
    rw [hw] at hl
    obtain ⟨b0, b1, b2, b3, t, rfl⟩ := exists_cons4 l hl
    refine ⟨toSigned 32 ((b0 <<< 24) ||| (b1 <<< 16) ||| (b2 <<< 8) ||| b3), ?_⟩
    simp only [read, i32.from_u8_be, List.getElem?_cons_zero, List.getElem?_cons_succ,
      Bind.bind, Option.bind, Pure.pure]
  dec_short := by
    intro l hl
    have hw : width ScalarTy.i32 = 4 := rfl
    rw [hw] at hl
    have hnone : l[3]? = none := List.getElem?_eq_none (by omega)
    simp only [read, i32.from_u8_be, Bind.bind, hnone, Option.bind]
    rcases l[0]? with _ | b0 <;> rcases l[1]? with _ | b1 <;> rcases l[2]? with _ | b2 <;> rfl
  dec_take := by
    intro l1 l2 h
    have e0 := getElem?_eq_of_take_eq h (by omega : (0 : Nat) < 4)
    have e1 := getElem?_eq_of_take_eq h (by omega : (1 : Nat) < 4)
    have e2 := getElem?_eq_of_take_eq h (by omega : (2 : Nat) < 4)
    have e3 := getElem?_eq_of_take_eq h (by omega : (3 : Nat) < 4)
    simp only [read, i32.from_u8_be, e0, e1, e2, e3]
  wprog_max := by
    intro v
    exact ⟨asU8 v, by simp [writeProg, i32.to_u8_be_writes]⟩
  le_first := by
    intro h
    cases h

/-- Codec facts for i32, little-endian. -/
lemma codecFacts_i32_le : CodecFacts .i32 .le where
  bytes_len := fun _ => rfl
  enc_shape := by
    intro v len R hlen hR
    have hw : width ScalarTy.i32 = 4 := rfl
    rw [hw] at hlen hR
    obtain ⟨r0, r1, r2, r3, t, rfl⟩ := exists_cons4 R hR
    simp only [writeProg, i32.to_u8_le_writes, execWritesIn]
    rw [if_pos (by omega : (3 : Nat) < len), if_pos (by omega : (2 : Nat) < len), if_pos (by omega : (1 : Nat) < len), if_pos (by omega : (0 : Nat) < len)]
    rfl
  dec_block := fun v hv rest => i32_dec_block_le v hv.1 hv.2 rest
  dec_total := by
    intro l hl
    have hw : width ScalarTy.i32 = 4 := rfl
    rw [hw] at hl
    obtain ⟨b0, b1, b2, b3, t, rfl⟩ := exists_cons4 l hl
    refine ⟨toSigned 32 ((b3 <<< 24) ||| (b2 <<< 16) ||| (b1 <<< 8) ||| b0), ?_⟩
    simp only [read, i32.from_u8_le, List.getElem?_cons_zero, List.getElem?_cons_succ,
      Bind.bind, Option.bind, Pure.pure]
  dec_short := by
    intro l hl
    have hw : width ScalarTy.i32 = 4 := rfl
    rw [hw] at hl
    have hnone : l[3]? = none := List.getElem?_eq_none (by omega)
    simp only [read, i32.from_u8_le, Bind.bind, hnone, Option.bind]
    rcases l[0]? with _ | b0 <;> rcases l[1]? with _ | b1 <;> rcases l[2]? with _ | b2 <;> rfl
  dec_take := by
    intro l1 l2 h
    have e0 := getElem?_eq_of_take_eq h (by omega : (0 : Nat) < 4)
    have e1 := getElem?_eq_of_take_eq h (by omega : (1 : Nat) < 4)
    have e2 := getElem?_eq_of_take_eq h (by omega : (2 : Nat) < 4)
    have e3 := getElem?_eq_of_take_eq h (by omega : (3 : Nat) < 4)
    simp only [read, i32.from_u8_le, e0, e1, e2, e3]
  wprog_max := by
    intro v
    exact ⟨asU8 (ashr v 24), by simp [writeProg, i32.to_u8_le_writes]⟩
  le_first := by
    intro _ v
    exact ⟨_, _, rfl⟩

/-- Codec facts for u64, big-endian. -/
lemma codecFacts_u64_be : CodecFacts .u64 .be where
  bytes_len := fun _ => rfl
  enc_shape := by
    intro v len R hlen hR
    have hw : width ScalarTy.u64 = 8 := rfl
    rw [hw] at hlen hR
    obtain ⟨r0, r1, r2, r3, r4, r5, r6, r7, t, rfl⟩ := exists_cons8 R hR
    simp only [writeProg, u64.to_u8_be_writes, execWritesIn]
    rw [if_pos (by omega : (0 : Nat) < len), if_pos (by omega : (1 : Nat) < len), if_pos (by omega : (2 : Nat) < len), if_pos (by omega : (3 : Nat) < len), if_pos (by omega : (4 : Nat) < len), if_pos (by omega : (5 : Nat) < len), if_pos (by omega : (6 : Nat) < len), if_pos (by omega : (7 : Nat) < len)]
    rfl
  dec_block := fun v hv rest => u64_dec_block_be v hv rest
  dec_total := by
    intro l hl
    have hw : width ScalarTy.u64 = 8 := rfl
    rw [hw] at hl
    obtain ⟨b0, b1, b2, b3, b4, b5, b6, b7, t, rfl⟩ := exists_cons8 l hl
    refine ⟨(b0 <<< 56) ||| (b1 <<< 48) ||| (b2 <<< 40) ||| (b3 <<< 32) ||| (b4 <<< 24) ||| (b5 <<< 16) ||| (b6 <<< 8) ||| b7, ?_⟩
    simp only [read, u64.from_u8_be, List.getElem?_cons_zero, List.getElem?_cons_succ,
      Bind.bind, Option.bind, Pure.pure]
  dec_short := by
    intro l hl
    have hw : width ScalarTy.u64 = 8 := rfl
    rw [hw] at hl
    have hnone : l[7]? = none := List.getElem?_eq_none (by omega)
    simp only [read, u64.from_u8_be, Bind.bind, hnone, Option.bind]
    rcases l[0]? with _ | b0 <;> rcases l[1]? with _ | b1 <;> rcases l[2]? with _ | b2 <;> rcases l[3]? with _ | b3 <;> rcases l[4]? with _ | b4 <;> rcases l[5]? with _ | b5 <;> rcases l[6]? with _ | b6 <;> rfl
  dec_take := by
    intro l1 l2 h
    have e0 := getElem?_eq_of_take_eq h (by omega : (0 : Nat) < 8)
    have e1 := getElem?_eq_of_take_eq h (by omega : (1 : Nat) < 8)
    have e2 := getElem?_eq_of_take_eq h (by omega : (2 : Nat) < 8)
    have e3 := getElem?_eq_of_take_eq h (by omega : (3 : Nat) < 8)
    have e4 := getElem?_eq_of_take_eq h (by omega : (4 : Nat) < 8)
    have e5 := getElem?_eq_of_take_eq h (by omega : (5 : Nat) < 8)
    have e6 := getElem?_eq_of_take_eq h (by omega : (6 : Nat) < 8)
    have e7 := getElem?_eq_of_take_eq h (by omega : (7 : Nat) < 8)
    simp only [read, u64.from_u8_be, e0, e1, e2, e3, e4, e5, e6, e7]
  wprog_max := by
    intro v
    exact ⟨v % 256, by simp [writeProg, u64.to_u8_be_writes]⟩
  le_first := by
    intro h
    cases h

/-- Codec facts for u64, little-endian. -/
lemma codecFacts_u64_le : CodecFacts .u64 .le where
  bytes_len := fun _ => rfl
  enc_shape := by
    intro v len R hlen hR
    have hw : width ScalarTy.u64 = 8 := rfl
    rw [hw] at hlen hR
    obtain ⟨r0, r1, r2, r3, r4, r5, r6, r7, t, rfl⟩ := exists_cons8 R hR
    simp only [writeProg, u64.to_u8_le_writes, execWritesIn]
    rw [if_pos (by omega : (7 : Nat) < len), if_pos (by omega : (6 : Nat) < len), if_pos (by omega : (5 : Nat) < len), if_pos (by omega : (4 : Nat) < len), if_pos (by omega : (3 : Nat) < len), if_pos (by omega : (2 : Nat) < len), if_pos (by omega : (1 : Nat) < len), if_pos (by omega : (0 : Nat) < len)]
    rfl
  dec_block := fun v hv rest => u64_dec_block_le v hv rest
  dec_total := by
    intro l hl
    have hw : width ScalarTy.u64 = 8 := rfl
    rw [hw] at hl
    obtain ⟨b0, b1, b2, b3, b4, b5, b6, b7, t, rfl⟩ := exists_cons8 l hl
    refine ⟨(b7 <<< 56) ||| (b6 <<< 48) ||| (b5 <<< 40) ||| (b4 <<< 32) ||| (b3 <<< 24) ||| (b2 <<< 16) ||| (b1 <<< 8) ||| b0, ?_⟩
    simp only [read, u64.from_u8_le, List.getElem?_cons_zero, List.getElem?_cons_succ,
      Bind.bind, Option.bind, Pure.pure]
  dec_short := by
    intro l hl
    have hw : width ScalarTy.u64 = 8 := rfl
    rw [hw] at hl
    have hnone : l[7]? = none := List.getElem?_eq_none (by omega)
    simp only [read, u64.from_u8_le, Bind.bind, hnone, Option.bind]
    rcases l[0]? with _ | b0 <;> rcases l[1]? with _ | b1 <;> rcases l[2]? with _ | b2 <;> rcases l[3]? with _ | b3 <;> rcases l[4]? with _ | b4 <;> rcases l[5]? with _ | b5 <;> rcases l[6]? with _ | b6 <;> rfl
  dec_take := by
    intro l1 l2 h
    have e0 := getElem?_eq_of_take_eq h (by omega : (0 : Nat) < 8)
    have e1 := getElem?_eq_of_take_eq h (by omega : (1 : Nat) < 8)
    have e2 := getElem?_eq_of_take_eq h (by omega : (2 : Nat) < 8)
    have e3 := getElem?_eq_of_take_eq h (by omega : (3 : Nat) < 8)
    have e4 := getElem?_eq_of_take_eq h (by omega : (4 : Nat) < 8)
    have e5 := getElem?_eq_of_take_eq h (by omega : (5 : Nat) < 8)
    have e6 := getElem?_eq_of_take_eq h (by omega : (6 : Nat) < 8)
    have e7 := getElem?_eq_of_take_eq h (by omega : (7 : Nat) < 8)
    simp only [read, u64.from_u8_le, e0, e1, e2, e3, e4, e5, e6, e7]
  wprog_max := by
    intro v
    exact ⟨(v >>> 56) % 256, by simp [writeProg, u64.to_u8_le_writes]⟩
  le_first := by
    intro _ v
    exact ⟨_, _, rfl⟩

/-- Codec facts for i64, big-endian. -/
lemma codecFacts_i64_be : CodecFacts .i64 .be where
  bytes_len := fun _ => rfl
  enc_shape := by
    intro v len R hlen hR
    have hw : width ScalarTy.i64 = 8 := rfl
    rw [hw] at hlen hR
    obtain ⟨r0, r1, r2, r3, r4, r5, r6, r7, t, rfl⟩ := exists_cons8 R hR
    simp only [writeProg, i64.to_u8_be_writes, execWritesIn]
    rw [if_pos (by omega : (0 : Nat) < len), if_pos (by omega : (1 : Nat) < len), if_pos (by omega : (2 : Nat) < len), if_pos (by omega : (3 : Nat) < len), if_pos (by omega : (4 : Nat) < len), if_pos (by omega : (5 : Nat) < len), if_pos (by omega : (6 : Nat) < len), if_pos (by omega : (7 : Nat) < len)]
    rfl
  dec_block := fun v hv rest => i64_dec_block_be v hv.1 hv.2 rest
  dec_total := by
    intro l hl
    have hw : width ScalarTy.i64 = 8 := rfl
    rw [hw] at hl
    obtain ⟨b0, b1, b2, b3, b4, b5, b6, b7, t, rfl⟩ := exists_cons8 l hl
    refine ⟨toSigned 64 ((b0 <<< 56) ||| (b1 <<< 48) ||| (b2 <<< 40) ||| (b3 <<< 32) ||| (b4 <<< 24) ||| (b5 <<< 16) ||| (b6 <<< 8) ||| b7), ?_⟩
    simp only [read, i64.from_u8_be, List.getElem?_cons_zero, List.getElem?_cons_succ,
      Bind.bind, Option.bind, Pure.pure]
  dec_short := by
    intro l hl
    have hw : width ScalarTy.i64 = 8 := rfl
    rw [hw] at hl
    have hnone : l[7]? = none := List.getElem?_eq_none (by omega)
    simp only [read, i64.from_u8_be, Bind.bind, hnone, Option.bind]
    rcases l[0]? with _ | b0 <;> rcases l[1]? with _ | b1 <;> rcases l[2]? with _ | b2 <;> rcases l[3]? with _ | b3 <;> rcases l[4]? with _ | b4 <;> rcases l[5]? with _ | b5 <;> rcases l[6]? with _ | b6 <;> rfl
  dec_take := by
    intro l1 l2 h
    have e0 := getElem?_eq_of_take_eq h (by omega : (0 : Nat) < 8)
    have e1 := getElem?_eq_of_take_eq h (by omega : (1 : Nat) < 8)
    have e2 := getElem?_eq_of_take_eq h (by omega : (2 : Nat) < 8)
    have e3 := getElem?_eq_of_take_eq h (by omega : (3 : Nat) < 8)
    have e4 := getElem?_eq_of_take_eq h (by omega : (4 : Nat) < 8)
    have e5 := getElem?_eq_of_take_eq h (by omega : (5 : Nat) < 8)
    have e6 := getElem?_eq_of_take_eq h (by omega : (6 : Nat) < 8)
    have e7 := getElem?_eq_of_take_eq h (by omega : (7 : Nat) < 8)
    simp only [read, i64.from_u8_be, e0, e1, e2, e3, e4, e5, e6, e7]
  wprog_max := by
    intro v
    exact ⟨asU8 v, by simp [writeProg, i64.to_u8_be_writes]⟩
  le_first := by
    intro h
    cases h

/-- Codec facts for i64, little-endian. -/
lemma codecFacts_i64_le : CodecFacts .i64 .le where
  bytes_len := fun _ => rfl
  enc_shape := by
    intro v len R hlen hR
    have hw : width ScalarTy.i64 = 8 := rfl
    rw [hw] at hlen hR
    obtain ⟨r0, r1, r2, r3, r4, r5, r6, r7, t, rfl⟩ := exists_cons8 R hR
    simp only [writeProg, i64.to_u8_le_writes, execWritesIn]
    rw [if_pos (by omega : (7 : Nat) < len), if_pos (by omega : (6 : Nat) < len), if_pos (by omega : (5 : Nat) < len), if_pos (by omega : (4 : Nat) < len), if_pos (by omega : (3 : Nat) < len), if_pos (by omega : (2 : Nat) < len), if_pos (by omega : (1 : Nat) < len), if_pos (by omega : (0 : Nat) < len)]
    rfl
  dec_block := fun v hv rest => i64_dec_block_le v hv.1 hv.2 rest
  dec_total := by
    intro l hl
    have hw : width ScalarTy.i64 = 8 := rfl
    rw [hw] at hl
    obtain ⟨b0, b1, b2, b3, b4, b5, b6, b7, t, rfl⟩ := exists_cons8 l hl
    refine ⟨toSigned 64 ((b7 <<< 56) ||| (b6 <<< 48) ||| (b5 <<< 40) ||| (b4 <<< 32) ||| (b3 <<< 24) ||| (b2 <<< 16) ||| (b1 <<< 8) ||| b0), ?_⟩
    simp only [read, i64.from_u8_le, List.getElem?_cons_zero, List.getElem?_cons_succ,
      Bind.bind, Option.bind, Pure.pure]
  dec_short := by
    intro l hl
    have hw : width ScalarTy.i64 = 8 := rfl
    rw [hw] at hl
    have hnone : l[7]? = none := List.getElem?_eq_none (by omega)
    simp only [read, i64.from_u8_le, Bind.bind, hnone, Option.bind]
    rcases l[0]? with _ | b0 <;> rcases l[1]? with _ | b1 <;> rcases l[2]? with _ | b2 <;> rcases l[3]? with _ | b3 <;> rcases l[4]? with _ | b4 <;> rcases l[5]? with _ | b5 <;> rcases l[6]? with _ | b6 <;> rfl
  dec_take := by
    intro l1 l2 h
    have e0 := getElem?_eq_of_take_eq h (by omega : (0 : Nat) < 8)
    have e1 := getElem?_eq_of_take_eq h (by omega : (1 : Nat) < 8)
    have e2 := getElem?_eq_of_take_eq h (by omega : (2 : Nat) < 8)
    have e3 := getElem?_eq_of_take_eq h (by omega : (3 : Nat) < 8)
    have e4 := getElem?_eq_of_take_eq h (by omega : (4 : Nat) < 8)
    have e5 := getElem?_eq_of_take_eq h (by omega : (5 : Nat) < 8)
    have e6 := getElem?_eq_of_take_eq h (by omega : (6 : Nat) < 8)
    have e7 := getElem?_eq_of_take_eq h (by omega : (7 : Nat) < 8)
    simp only [read, i64.from_u8_le, e0, e1, e2, e3, e4, e5, e6, e7]
  wprog_max := by
    intro v
    exact ⟨asU8 (ashr v 56), by simp [writeProg, i64.to_u8_le_writes]⟩
  le_first := by
    intro _ v
    exact ⟨_, _, rfl⟩

/-- Codec facts for f32, big-endian. -/
lemma codecFacts_f32_be : CodecFacts .f32 .be where
  bytes_len := fun _ => rfl
  enc_shape := by
    intro v len R hlen hR
    have hw : width ScalarTy.f32 = 4 := rfl
    rw [hw] at hlen hR
    obtain ⟨r0, r1, r2, r3, t, rfl⟩ := exists_cons4 R hR
    simp only [writeProg, f32.to_u8_be_writes, execWritesIn]
    rw [if_pos (by omega : (0 : Nat) < len), if_pos (by omega : (1 : Nat) < len), if_pos (by omega : (2 : Nat) < len), if_pos (by omega : (3 : Nat) < len)]
    rfl
  dec_block := fun v hv rest => u32_dec_block_be v hv rest
  dec_total := by
    intro l hl
    have hw : width ScalarTy.f32 = 4 := rfl
    rw [hw] at hl
    obtain ⟨b0, b1, b2, b3, t, rfl⟩ := exists_cons4 l hl
    refine ⟨(b0 <<< 24) ||| (b1 <<< 16) ||| (b2 <<< 8) ||| b3, ?_⟩
    simp only [read, f32.from_u8_be, u32.from_u8_be, List.getElem?_cons_zero, List.getElem?_cons_succ,
      Bind.bind, Option.bind, Pure.pure]
  dec_short := by
    intro l hl
    have hw : width ScalarTy.f32 = 4 := rfl
    rw [hw] at hl
    have hnone : l[3]? = none := List.getElem?_eq_none (by omega)
    simp only [read, f32.from_u8_be, u32.from_u8_be, Bind.bind, hnone, Option.bind]
    rcases l[0]? with _ | b0 <;> rcases l[1]? with _ | b1 <;> rcases l[2]? with _ | b2 <;> rfl
  dec_take := by
    intro l1 l2 h
    have e0 := getElem?_eq_of_take_eq h (by omega : (0 : Nat) < 4)
    have e1 := getElem?_eq_of_take_eq h (by omega : (1 : Nat) < 4)
    have e2 := getElem?_eq_of_take_eq h (by omega : (2 : Nat) < 4)
    have e3 := getElem?_eq_of_take_eq h (by omega : (3 : Nat) < 4)
    simp only [read, f32.from_u8_be, u32.from_u8_be, e0, e1, e2, e3]
  wprog_max := by
    intro v
    exact ⟨v % 256, by simp [writeProg, f32.to_u8_be_writes, u32.to_u8_be_writes]⟩
  le_first := by
    intro h
    cases h

/-- Codec facts for f32, little-endian. -/
lemma codecFacts_f32_le : CodecFacts .f32 .le where
  bytes_len := fun _ => rfl
  enc_shape := by
    intro v len R hlen hR
    have hw : width ScalarTy.f32 = 4 := rfl
    rw [hw] at hlen hR
    obtain ⟨r0, r1, r2, r3, t, rfl⟩ := exists_cons4 R hR
    simp only [writeProg, f32.to_u8_le_writes, execWritesIn]
    rw [if_pos (by omega : (3 : Nat) < len), if_pos (by omega : (2 : Nat) < len), if_pos (by omega : (1 : Nat) < len), if_pos (by omega : (0 : Nat) < len)]
    rfl
  dec_block := fun v hv rest => u32_dec_block_le v hv rest
  dec_total := by
    intro l hl
    have hw : width ScalarTy.f32 = 4 := rfl
    rw [hw] at hl
    obtain ⟨b0, b1, b2, b3, t, rfl⟩ := exists_cons4 l hl
    refine ⟨(b3 <<< 24) ||| (b2 <<< 16) ||| (b1 <<< 8) ||| b0, ?_⟩
    simp only [read, f32.from_u8_le, u32.from_u8_le, List.getElem?_cons_zero, List.getElem?_cons_succ,
      Bind.bind, Option.bind, Pure.pure]
  dec_short := by
    intro l hl
    have hw : width ScalarTy.f32 = 4 := rfl
    rw [hw] at hl
    have hnone : l[3]? = none := List.getElem?_eq_none (by omega)
    simp only [read, f32.from_u8_le, u32.from_u8_le, Bind.bind, hnone, Option.bind]
    rcases l[0]? with _ | b0 <;> rcases l[1]? with _ | b1 <;> rcases l[2]? with _ | b2 <;> rfl
  dec_take := by
    intro l1 l2 h
    have e0 := getElem?_eq_of_take_eq h (by omega : (0 : Nat) < 4)
    have e1 := getElem?_eq_of_take_eq h (by omega : (1 : Nat) < 4)
    have e2 := getElem?_eq_of_take_eq h (by omega : (2 : Nat) < 4)
    have e3 := getElem?_eq_of_take_eq h (by omega : (3 : Nat) < 4)
    simp only [read, f32.from_u8_le, u32.from_u8_le, e0, e1, e2, e3]
  wprog_max := by
    intro v
    exact ⟨(v >>> 24) % 256, by simp [writeProg, f32.to_u8_le_writes, u32.to_u8_le_writes]⟩
  le_first := by
    intro _ v
    exact ⟨_, _, rfl⟩

/-- Codec facts for f64, big-endian. -/
lemma codecFacts_f64_be : CodecFacts .f64 .be where
  bytes_len := fun _ => rfl
  enc_shape := by
    intro v len R hlen hR
    have hw : width ScalarTy.f64 = 8 := rfl
    rw [hw] at hlen hR
    obtain ⟨r0, r1, r2, r3, r4, r5, r6, r7, t, rfl⟩ := exists_cons8 R hR
    simp only [writeProg, f64.to_u8_be_writes, execWritesIn]
    rw [if_pos (by omega : (0 : Nat) < len), if_pos (by omega : (1 : Nat) < len), if_pos (by omega : (2 : Nat) < len), if_pos (by omega : (3 : Nat) < len), if_pos (by omega : (4 : Nat) < len), if_pos (by omega : (5 : Nat) < len), if_pos (by omega : (6 : Nat) < len), if_pos (by omega : (7 : Nat) < len)]
    rfl
  dec_block := fun v hv rest => u64_dec_block_be v hv rest
  dec_total := by
    intro l hl
    have hw : width ScalarTy.f64 = 8 := rfl
    rw [hw] at hl
    obtain ⟨b0, b1, b2, b3, b4, b5, b6, b7, t, rfl⟩ := exists_cons8 l hl
    refine ⟨(b0 <<< 56) ||| (b1 <<< 48) ||| (b2 <<< 40) ||| (b3 <<< 32) ||| (b4 <<< 24) ||| (b5 <<< 16) ||| (b6 <<< 8) ||| b7, ?_⟩
    simp only [read, f64.from_u8_be, u64.from_u8_be, List.getElem?_cons_zero, List.getElem?_cons_succ,
      Bind.bind, Option.bind, Pure.pure]
  dec_short := by
    intro l hl
    have hw : width ScalarTy.f64 = 8 := rfl
    rw [hw] at hl
    have hnone : l[7]? = none := List.getElem?_eq_none (by omega)
    simp only [read, f64.from_u8_be, u64.from_u8_be, Bind.bind, hnone, Option.bind]
    rcases l[0]? with _ | b0 <;> rcases l[1]? with _ | b1 <;> rcases l[2]? with _ | b2 <;> rcases l[3]? with _ | b3 <;> rcases l[4]? with _ | b4 <;> rcases l[5]? with _ | b5 <;> rcases l[6]? with _ | b6 <;> rfl
  dec_take := by
    intro l1 l2 h
    have e0 := getElem?_eq_of_take_eq h (by omega : (0 : Nat) < 8)
    have e1 := getElem?_eq_of_take_eq h (by omega : (1 : Nat) < 8)
    have e2 := getElem?_eq_of_take_eq h (by omega : (2 : Nat) < 8)
    have e3 := getElem?_eq_of_take_eq h (by omega : (3 : Nat) < 8)
    have e4 := getElem?_eq_of_take_eq h (by omega : (4 : Nat) < 8)
    have e5 := getElem?_eq_of_take_eq h (by omega : (5 : Nat) < 8)
    have e6 := getElem?_eq_of_take_eq h (by omega : (6 : Nat) < 8)
    have e7 := getElem?_eq_of_take_eq h (by omega : (7 : Nat) < 8)
    simp only [read, f64.from_u8_be, u64.from_u8_be, e0, e1, e2, e3, e4, e5, e6, e7]
  wprog_max := by
    intro v
    exact ⟨v % 256, by simp [writeProg, f64.to_u8_be_writes, u64.to_u8_be_writes]⟩
  le_first := by
    intro h
    cases h

/-- Codec facts for f64, little-endian. -/
lemma codecFacts_f64_le : CodecFacts .f64 .le where
  bytes_len := fun _ => rfl
  enc_shape := by
    intro v len R hlen hR
    have hw : width ScalarTy.f64 = 8 := rfl
    rw [hw] at hlen hR
    obtain ⟨r0, r1, r2, r3, r4, r5, r6, r7, t, rfl⟩ := exists_cons8 R hR
    simp only [writeProg, f64.to_u8_le_writes, execWritesIn]
    rw [if_pos (by omega : (7 : Nat) < len), if_pos (by omega : (6 : Nat) < len), if_pos (by omega : (5 : Nat) < len), if_pos (by omega : (4 : Nat) < len), if_pos (by omega : (3 : Nat) < len), if_pos (by omega : (2 : Nat) < len), if_pos (by omega : (1 : Nat) < len), if_pos (by omega : (0 : Nat) < len)]
    rfl
  dec_block := fun v hv rest => u64_dec_block_le v hv rest
  dec_total := by
    intro l hl
    have hw : width ScalarTy.f64 = 8 := rfl
    rw [hw] at hl
    obtain ⟨b0, b1, b2, b3, b4, b5, b6, b7, t, rfl⟩ := exists_cons8 l hl
    refine ⟨(b7 <<< 56) ||| (b6 <<< 48) ||| (b5 <<< 40) ||| (b4 <<< 32) ||| (b3 <<< 24) ||| (b2 <<< 16) ||| (b1 <<< 8) ||| b0, ?_⟩
    simp only [read, f64.from_u8_le, u64.from_u8_le, List.getElem?_cons_zero, List.getElem?_cons_succ,
      Bind.bind, Option.bind, Pure.pure]
  dec_short := by
    intro l hl
    have hw : width ScalarTy.f64 = 8 := rfl
    rw [hw] at hl
    have hnone : l[7]? = none := List.getElem?_eq_none (by omega)
    simp only [read, f64.from_u8_le, u64.from_u8_le, Bind.bind, hnone, Option.bind]
    rcases l[0]? with _ | b0 <;> rcases l[1]? with _ | b1 <;> rcases l[2]? with _ | b2 <;> rcases l[3]? with _ | b3 <;> rcases l[4]? with _ | b4 <;> rcases l[5]? with _ | b5 <;> rcases l[6]? with _ | b6 <;> rfl
  dec_take := by
    intro l1 l2 h
    have e0 := getElem?_eq_of_take_eq h (by omega : (0 : Nat) < 8)
    have e1 := getElem?_eq_of_take_eq h (by omega : (1 : Nat) < 8)
    have e2 := getElem?_eq_of_take_eq h (by omega : (2 : Nat) < 8)
    have e3 := getElem?_eq_of_take_eq h (by omega : (3 : Nat) < 8)
    have e4 := getElem?_eq_of_take_eq h (by omega : (4 : Nat) < 8)
    have e5 := getElem?_eq_of_take_eq h (by omega : (5 : Nat) < 8)
    have e6 := getElem?_eq_of_take_eq h (by omega : (6 : Nat) < 8)
    have e7 := getElem?_eq_of_take_eq h (by omega : (7 : Nat) < 8)
    simp only [read, f64.from_u8_le, u64.from_u8_le, e0, e1, e2, e3, e4, e5, e6, e7]
  wprog_max := by
    intro v
    exact ⟨(v >>> 56) % 256, by simp [writeProg, f64.to_u8_le_writes, u64.to_u8_le_writes]⟩
  le_first := by
    intro _ v
    exact ⟨_, _, rfl⟩

/-- Codec facts for bool, big-endian. -/
lemma codecFacts_bool_be : CodecFacts .bool .be where
  bytes_len := fun _ => rfl
  enc_shape := by
    intro v len R hlen hR
    have hw : width ScalarTy.bool = 1 := rfl
    rw [hw] at hlen hR
    obtain ⟨r0, t, rfl⟩ := exists_cons1 R hR
    simp only [writeProg, bool.to_u8_be_writes, execWritesIn]
    rw [if_pos (by omega : (0 : Nat) < len)]
    rfl
  dec_block := fun v _ rest => bool_dec_block_be v rest
  dec_total := by
    intro l hl
    have hw : width ScalarTy.bool = 1 := rfl
    rw [hw] at hl
    obtain ⟨b0, t, rfl⟩ := exists_cons1 l hl
    refine ⟨decide (0 < b0), ?_⟩
    simp only [read, bool.from_u8_be, List.getElem?_cons_zero, List.getElem?_cons_succ,
      Bind.bind, Option.bind, Pure.pure]
  dec_short := by
    intro l hl
    have hw : width ScalarTy.bool = 1 := rfl
    rw [hw] at hl
    have hnone : l[0]? = none := List.getElem?_eq_none (by omega)
    simp only [read, bool.from_u8_be, Bind.bind, hnone, Option.bind]
  dec_take := by
    intro l1 l2 h
    have e0 := getElem?_eq_of_take_eq h (by omega : (0 : Nat) < 1)
    simp only [read, bool.from_u8_be, e0]
  wprog_max := by
    intro v
    exact ⟨if v then 1 else 0, by simp [writeProg, bool.to_u8_be_writes]⟩
  le_first := by
    intro h
    cases h

/-- Codec facts for bool, little-endian. -/
lemma codecFacts_bool_le : CodecFacts .bool .le where
  bytes_len := fun _ => rfl
  enc_shape := by
    intro v len R hlen hR
    have hw : width ScalarTy.bool = 1 := rfl
    rw [hw] at hlen hR
    obtain ⟨r0, t, rfl⟩ := exists_cons1 R hR
    simp only [writeProg, bool.to_u8_le_writes, execWritesIn]
    rw [if_pos (by omega : (0 : Nat) < len)]
    rfl
  dec_block := fun v _ rest => bool_dec_block_le v rest
  dec_total := by
    intro l hl
    have hw : width ScalarTy.bool = 1 := rfl
    rw [hw] at hl
    obtain ⟨b0, t, rfl⟩ := exists_cons1 l hl
    refine ⟨decide (0 < b0), ?_⟩
    simp only [read, bool.from_u8_le, List.getElem?_cons_zero, List.getElem?_cons_succ,
      Bind.bind, Option.bind, Pure.pure]
  dec_short := by
    intro l hl
    have hw : width ScalarTy.bool = 1 := rfl
    rw [hw] at hl
    have hnone : l[0]? = none := List.getElem?_eq_none (by omega)
    simp only [read, bool.from_u8_le, Bind.bind, hnone, Option.bind]
  dec_take := by
    intro l1 l2 h
    have e0 := getElem?_eq_of_take_eq h (by omega : (0 : Nat) < 1)
    simp only [read, bool.from_u8_le, e0]
  wprog_max := by
    intro v
    exact ⟨if v then 1 else 0, by simp [writeProg, bool.to_u8_le_writes]⟩
  le_first := by
    intro _ v
    exact ⟨_, _, rfl⟩

/-- The codec facts hold for every scalar type and byte order. -/
lemma codecFacts : ∀ (t : ScalarTy) (ord : Order), CodecFacts t ord
  | .u8, .be => codecFacts_u8_be
  | .u8, .le => codecFacts_u8_le
  | .i8, .be => codecFacts_i8_be
  | .i8, .le => codecFacts_i8_le
  | .u16, .be => codecFacts_u16_be
  | .u16, .le => codecFacts_u16_le
  | .i16, .be => codecFacts_i16_be
  | .i16, .le => codecFacts_i16_le
  | .u32, .be => codecFacts_u32_be
  | .u32, .le => codecFacts_u32_le
  | .i32, .be => codecFacts_i32_be
  | .i32, .le => codecFacts_i32_le
  | .u64, .be => codecFacts_u64_be
  | .u64, .le => codecFacts_u64_le
  | .i64, .be => codecFacts_i64_be
  | .i64, .le => codecFacts_i64_le
  | .f32, .be => codecFacts_f32_be
  | .f32, .le => codecFacts_f32_le
  | .f64, .be => codecFacts_f64_be
  | .f64, .le => codecFacts_f64_le
  | .bool, .be => codecFacts_bool_be
  | .bool, .le => codecFacts_bool_le

/-- A scalar encode into a large enough slice succeeds and replaces exactly
the first `width t` bytes with the byte image. -/
lemma write_ok (t : ScalarTy) (ord : Order) (v : Value t) (buf : List Nat)
    (h : width t ≤ buf.length) :
    write t ord v buf = .ok (encBytes t ord v ++ buf.drop (width t)) :=
  (codecFacts t ord).enc_shape v buf.length buf h h

/-- Concatenation of the byte images of a list of values. -/
def blocksOf (f : α → List Nat) : List α → List Nat
  | [] => []
  | x :: xs => f x ++ blocksOf f xs

/-- Length of a concatenation of fixed-width blocks. -/
lemma blocksOf_length {f : α → List Nat} {w : Nat} (hf : ∀ x, (f x).length = w) :
    ∀ s : List α, (blocksOf f s).length = s.length * w
  | [] => by simp [blocksOf]
  | x :: xs => by
    simp [blocksOf, List.length_append, hf x, blocksOf_length hf xs]
    ring

/-- The `Vec<T>` encode loop, started at slot `i` on a buffer that begins with
an already-encoded prefix `P`, writes the blocks of the remaining values and
leaves the tail beyond them untouched. -/
lemma vecWrite_ok_aux (t : ScalarTy) (ord : Order) :
    ∀ (s : List (Value t)) (i : Nat) (P R : List Nat),
      P.length = i * width t → s.length * width t ≤ R.length →
      Vec.to_u8 (width t) (writeProg t ord) s i (P ++ R) =
        .ok (P ++ blocksOf (encBytes t ord) s ++ R.drop (s.length * width t)) := by
  intro s
  induction s with
  | nil =>
    intro i P R hP hR
    simp [Vec.to_u8, blocksOf]
  | cons x xs ih =>
    intro i P R hP hR
    have hw := width_pos t
    have hmul1 : (i + 1) * width t = i * width t + width t := by ring
    have hmul2 : (xs.length + 1) * width t = xs.length * width t + width t := by ring
    have hsl : (x :: xs).length * width t = xs.length * width t + width t := by
      simp [List.length_cons]
      ring
    rw [hsl] at hR
    have happ : (P ++ R).length = i * width t + R.length := by
      simp [List.length_append, hP]
    have hcond : (i + 1) * width t ≤ (P ++ R).length := by omega
    have hexec : execWritesIn (i * width t) (width t) (writeProg t ord x) (P ++ R) =
        .ok (P ++ (encBytes t ord x ++ R.drop (width t))) := by
      rw [← hP, execWritesIn_append]
      rw [(codecFacts t ord).enc_shape x (width t) R (le_refl _) (by omega)]
    have hstep : Vec.to_u8 (width t) (writeProg t ord) (x :: xs) i (P ++ R) =
        Vec.to_u8 (width t) (writeProg t ord) xs (i + 1)
          (P ++ (encBytes t ord x ++ R.drop (width t))) := by
      simp only [Vec.to_u8]
      rw [if_pos hcond, hexec]
    rw [hstep, show P ++ (encBytes t ord x ++ R.drop (width t)) =
      (P ++ encBytes t ord x) ++ R.drop (width t) from (List.append_assoc _ _ _).symm]
    have hP' : (P ++ encBytes t ord x).length = (i + 1) * width t := by
      simp [List.length_append, hP, (codecFacts t ord).bytes_len x]
      omega
    have hR' : xs.length * width t ≤ (R.drop (width t)).length := by
      simp [List.length_drop]
      omega
    rw [ih (i + 1) (P ++ encBytes t ord x) (R.drop (width t)) hP' hR']
    rw [List.drop_drop, hsl, show width t + xs.length * width t =
      xs.length * width t + width t from by ring]
    simp [blocksOf, List.append_assoc]

/-- Writeable for `Vec<T>`: on a large enough buffer the encode succeeds,
lays the element blocks down in order and leaves the tail untouched. -/
lemma vecWrite_ok (t : ScalarTy) (ord : Order) (s : List (Value t)) (buf : List Nat)
    (h : s.length * width t ≤ buf.length) :
    vecWrite t ord s buf =
      .ok (blocksOf (encBytes t ord) s ++ buf.drop (s.length * width t)) := by
  have := vecWrite_ok_aux t ord s 0 [] buf (by simp) (by simpa using h)
  simpa [vecWrite] using this

/-- The `Vec<T>` decode loop recovers the values whose blocks it reads. -/
lemma vecRead_loop_blocks (t : ScalarTy) (ord : Order) :
    ∀ (s : List (Value t)) (i : Nat) (input : List Nat),
      (∀ x ∈ s, valid t x) →
      input.drop (i * width t) = blocksOf (encBytes t ord) s →
      Vec.from_loop (width t) (read t ord) input i s.length = some s := by
  intro s
  induction s with
  | nil =>
    intro i input _ _
    rfl
  | cons x xs ih =>
    intro i input hs hdrop
    have hw := width_pos t
    have hbl : (encBytes t ord x).length = width t := (codecFacts t ord).bytes_len x
    have hlen1 : input.length - i * width t =
        width t + (blocksOf (encBytes t ord) xs).length := by
      rw [← List.length_drop, hdrop]
      simp [blocksOf, List.length_append, hbl]
    have hmul1 : (i + 1) * width t = i * width t + width t := by ring
    have hle : i * width t + width t ≤ input.length := by omega
    have hslice : sliceRange input (i * width t) ((i + 1) * width t) =
        some (encBytes t ord x) := by
      unfold sliceRange
      rw [if_pos (by omega)]
      rw [show (i + 1) * width t - i * width t = width t from by omega]
      rw [hdrop, show blocksOf (encBytes t ord) (x :: xs) =
        encBytes t ord x ++ blocksOf (encBytes t ord) xs from rfl, List.take_left' hbl]
    have hdec : read t ord (encBytes t ord x) = some x := by
      have := (codecFacts t ord).dec_block x (hs x (List.mem_cons_self x xs)) []
      simpa using this
    have hdrop' : input.drop ((i + 1) * width t) = blocksOf (encBytes t ord) xs := by
      rw [hmul1, ← List.drop_drop, hdrop]
      rw [show blocksOf (encBytes t ord) (x :: xs) =
        encBytes t ord x ++ blocksOf (encBytes t ord) xs from rfl]
      exact List.drop_left' hbl
    have hrest := ih (i + 1) input (fun y hy => hs y (List.mem_cons_of_mem _ hy)) hdrop'
    show Vec.from_loop (width t) (read t ord) input i (xs.length + 1) = some (x :: xs)
    simp only [Vec.from_loop, hslice, hdec, hrest, Bind.bind, Option.bind, Pure.pure]

/-- Readable for `Vec<T>` on an exact concatenation of blocks gives back the
encoded values. -/
lemma vecRead_blocks (t : ScalarTy) (ord : Order) (s : List (Value t))
    (hs : ∀ x ∈ s, valid t x) :
    vecRead t ord (blocksOf (encBytes t ord) s) = some s := by
  unfold vecRead Vec.from_u8
  rw [blocksOf_length (fun x => (codecFacts t ord).bytes_len x) s,
    Nat.mul_div_cancel _ (width_pos t)]
  exact vecRead_loop_blocks t ord s 0 _ hs (by simp)

/-- The `Vec<T>` decode loop always succeeds when the requested slots fit,
yielding one decoded scalar per slot. -/
lemma vecRead_loop_total (t : ScalarTy) (ord : Order) :
    ∀ (n i : Nat) (input : List Nat),
      (i + n) * width t ≤ input.length →
      ∃ out : List (Value t),
        Vec.from_loop (width t) (read t ord) input i n = some out ∧
        out.length = n ∧
        ∀ j, out[j]? =
          if j < n then read t ord ((input.drop ((i + j) * width t)).take (width t))
          else none := by
  intro n
  induction n with
  | zero =>
    intro i input _
    exact ⟨[], rfl, rfl, fun j => by simp⟩
  | succ n ih =>
    intro i input hfit
    have hw := width_pos t
    have hfit' : i * width t + (n * width t + width t) ≤ input.length := by
      rw [show i * width t + (n * width t + width t) = (i + (n + 1)) * width t from by ring]
      exact hfit
    have hmul1 : (i + 1) * width t = i * width t + width t := by ring
    have hslice : sliceRange input (i * width t) ((i + 1) * width t) =
        some ((input.drop (i * width t)).take (width t)) := by
      unfold sliceRange
      rw [hmul1]
      rw [if_pos ⟨by omega, by omega⟩]
      rw [show i * width t + width t - i * width t = width t from by omega]
    obtain ⟨x, hx⟩ := (codecFacts t ord).dec_total
      ((input.drop (i * width t)).take (width t))
      (by
        rw [List.length_take, List.length_drop]
        omega)
    obtain ⟨out, hloop, hlen, hidx⟩ := ih (i + 1) input (by
      rw [show (i + 1 + n) * width t = i * width t + (n * width t + width t) from by ring]
      exact hfit')
    refine ⟨x :: out, ?_, by simp [hlen], ?_⟩
    · show Vec.from_loop (width t) (read t ord) input i (n + 1) = some (x :: out)
      simp only [Vec.from_loop, hslice, hx, hloop, Bind.bind, Option.bind, Pure.pure]
    · intro j
      cases j with
      | zero =>
        simp only [List.getElem?_cons_zero]
        rw [if_pos (by omega)]
        rw [show (i + 0) * width t = i * width t from by ring]
        exact hx.symm
      | succ j =>
        simp only [List.getElem?_cons_succ]
        rw [hidx j]
        rw [show i + 1 + j = i + (j + 1) from by omega]
        by_cases hj : j < n
        · rw [if_pos hj, if_pos (by omega)]
        · rw [if_neg hj, if_neg (by omega)]

/-- Readable for `Vec<T>` succeeds on every input, returning one element per
full slot and discarding the remainder bytes. -/
lemma vecRead_total (t : ScalarTy) (ord : Order) (input : List Nat) :
    ∃ out : List (Value t),
      vecRead t ord input = some out ∧
      out.length = input.length / width t ∧
      ∀ j, out[j]? =
        if j < input.length / width t then
          read t ord ((input.drop (j * width t)).take (width t))
        else none := by
  obtain ⟨out, hloop, hlen, hidx⟩ := vecRead_loop_total t ord (input.length / width t) 0 input
    (by
      simp only [Nat.zero_add]
      exact Nat.div_mul_le_self input.length (width t))
  refine ⟨out, hloop, hlen, fun j => ?_⟩
  rw [hidx j]
  simp

/-- Readable for `Vec<T>` on a window shorter than one element width returns
the empty sequence without fault. -/
lemma vecRead_short (t : ScalarTy) (ord : Order) (input : List Nat)
    (h : input.length < width t) : vecRead t ord input = some [] := by
  unfold vecRead Vec.from_u8
  rw [Nat.div_eq_of_lt h]
  rfl


/-! Spec-side definitions for the byte-order value formulas (paragraph 4.1 of
the specification), used to compare the decoders against the spec's words. -/

/-- The spec's big-endian formula: value = sum of `b[i] << (8*(w-1-i))`. -/
def specBeValue (w : Nat) (b : List Nat) : Nat :=
  ((List.range w).map (fun i => b.getD i 0 <<< (8 * (w - 1 - i)))).sum

/-- The spec's little-endian formula: value = sum of `b[i] << (8*i)`. -/
def specLeValue (w : Nat) (b : List Nat) : Nat :=
  ((List.range w).map (fun i => b.getD i 0 <<< (8 * i))).sum

/-- The spec's decode semantics for the multi-byte integer types: compose the
unsigned byte formula, and for signed types reinterpret the pattern as
two's-complement. Other scalar types are not covered by this formula. -/
def specIntDecode : (t : ScalarTy) → Order → List Nat → Option (Value t)
  | .u16, .be, b => some (specBeValue 2 b)
  | .u16, .le, b => some (specLeValue 2 b)
  | .i16, .be, b => some (toSigned 16 (specBeValue 2 b))
  | .i16, .le, b => some (toSigned 16 (specLeValue 2 b))
  | .u32, .be, b => some (specBeValue 4 b)
  | .u32, .le, b => some (specLeValue 4 b)
  | .i32, .be, b => some (toSigned 32 (specBeValue 4 b))
  | .i32, .le, b => some (toSigned 32 (specLeValue 4 b))
  | .u64, .be, b => some (specBeValue 8 b)
  | .u64, .le, b => some (specLeValue 8 b)
  | .i64, .be, b => some (toSigned 64 (specBeValue 8 b))
  | .i64, .le, b => some (toSigned 64 (specLeValue 8 b))
  | _, _, _ => none

/-- Spec big-endian formula evaluated on two explicit bytes. -/
lemma specBeValue_two (b0 b1 : Nat) (tl : List Nat) :
    specBeValue 2 (b0 :: b1 :: tl) = b0 * 2 ^ 8 + b1 := by
  simp [specBeValue, List.range_succ, Nat.shiftLeft_eq]

/-- Spec little-endian formula evaluated on two explicit bytes. -/
lemma specLeValue_two (b0 b1 : Nat) (tl : List Nat) :
    specLeValue 2 (b0 :: b1 :: tl) = b1 * 2 ^ 8 + b0 := by
  simp [specLeValue, List.range_succ, Nat.shiftLeft_eq]
  ring

/-- Spec big-endian formula evaluated on four explicit bytes. -/
lemma specBeValue_four (b0 b1 b2 b3 : Nat) (tl : List Nat) :
    specBeValue 4 (b0 :: b1 :: b2 :: b3 :: tl) =
      b0 * 2 ^ 24 + b1 * 2 ^ 16 + b2 * 2 ^ 8 + b3 := by
  simp [specBeValue, List.range_succ, Nat.shiftLeft_eq]
  ring

/-- Spec little-endian formula evaluated on four explicit bytes. -/
lemma specLeValue_four (b0 b1 b2 b3 : Nat) (tl : List Nat) :
    specLeValue 4 (b0 :: b1 :: b2 :: b3 :: tl) =
      b3 * 2 ^ 24 + b2 * 2 ^ 16 + b1 * 2 ^ 8 + b0 := by
  simp [specLeValue, List.range_succ, Nat.shiftLeft_eq]
  ring

/-- Spec big-endian formula evaluated on eight explicit bytes. -/
lemma specBeValue_eight (b0 b1 b2 b3 b4 b5 b6 b7 : Nat) (tl : List Nat) :
    specBeValue 8 (b0 :: b1 :: b2 :: b3 :: b4 :: b5 :: b6 :: b7 :: tl) =
      b0 * 2 ^ 56 + b1 * 2 ^ 48 + b2 * 2 ^ 40 + b3 * 2 ^ 32 +
        b4 * 2 ^ 24 + b5 * 2 ^ 16 + b6 * 2 ^ 8 + b7 := by
  simp [specBeValue, List.range_succ, Nat.shiftLeft_eq]
  ring

/-- Spec little-endian formula evaluated on eight explicit bytes. -/
lemma specLeValue_eight (b0 b1 b2 b3 b4 b5 b6 b7 : Nat) (tl : List Nat) :
    specLeValue 8 (b0 :: b1 :: b2 :: b3 :: b4 :: b5 :: b6 :: b7 :: tl) =
      b7 * 2 ^ 56 + b6 * 2 ^ 48 + b5 * 2 ^ 40 + b4 * 2 ^ 32 +
        b3 * 2 ^ 24 + b2 * 2 ^ 16 + b1 * 2 ^ 8 + b0 := by
  simp [specLeValue, List.range_succ, Nat.shiftLeft_eq]
  ring

/-- C3: for each multi-byte integer type, big-endian decode computes the
spec's most-significant-first byte formula and little-endian decode the
least-significant-first formula, with signed types obtained by reinterpreting
the unsigned pattern as two's-complement. -/
theorem C3_decode_formula (t : ScalarTy)
    (ht : t ∈ [ScalarTy.u16, ScalarTy.i16, ScalarTy.u32, ScalarTy.i32, ScalarTy.u64,
      ScalarTy.i64])
    (ord : Order) (buf : List Nat) (hbytes : ∀ b ∈ buf, b < 256)
    (hlen : width t ≤ buf.length) :
    read t ord buf = specIntDecode t ord buf := by
  fin_cases ht <;> cases ord
  · -- u16, be
    obtain ⟨b0, b1, tl, rfl⟩ := exists_cons2 buf hlen
    have h0 : b0 < 256 := hbytes b0 (by simp)
    have h1 : b1 < 256 := hbytes b1 (by simp)
    simp only [read, u16.from_u8_be, List.getElem?_cons_zero, List.getElem?_cons_succ,
      Bind.bind, Option.bind, Pure.pure, specIntDecode]
    rw [specBeValue_two, or2 h1]
  · -- u16, le
    obtain ⟨b0, b1, tl, rfl⟩ := exists_cons2 buf hlen
    have h0 : b0 < 256 := hbytes b0 (by simp)
    have h1 : b1 < 256 := hbytes b1 (by simp)
    simp only [read, u16.from_u8_le, List.getElem?_cons_zero, List.getElem?_cons_succ,
      Bind.bind, Option.bind, Pure.pure, specIntDecode]
    rw [specLeValue_two, or2 h0]
  · -- i16, be
    obtain ⟨b0, b1, tl, rfl⟩ := exists_cons2 buf hlen
    have h0 : b0 < 256 := hbytes b0 (by simp)
    have h1 : b1 < 256 := hbytes b1 (by simp)
    simp only [read, i16.from_u8_be, List.getElem?_cons_zero, List.getElem?_cons_succ,
      Bind.bind, Option.bind, Pure.pure, specIntDecode]
    rw [specBeValue_two, or2 h1]
  · -- i16, le
    obtain ⟨b0, b1, tl, rfl⟩ := exists_cons2 buf hlen
    have h0 : b0 < 256 := hbytes b0 (by simp)
    have h1 : b1 < 256 := hbytes b1 (by simp)
    simp only [read, i16.from_u8_le, List.getElem?_cons_zero, List.getElem?_cons_succ,
      Bind.bind, Option.bind, Pure.pure, specIntDecode]
    rw [specLeValue_two, or2 h0]
  · -- u32, be
    obtain ⟨b0, b1, b2, b3, tl, rfl⟩ := exists_cons4 buf hlen
    have h0 : b0 < 256 := hbytes b0 (by simp)
    have h1 : b1 < 256 := hbytes b1 (by simp)
    have h2 : b2 < 256 := hbytes b2 (by simp)
    have h3 : b3 < 256 := hbytes b3 (by simp)
    simp only [read, u32.from_u8_be, List.getElem?_cons_zero, List.getElem?_cons_succ,
      Bind.bind, Option.bind, Pure.pure, specIntDecode]
    rw [specBeValue_four, or4 h1 h2 h3]
  · -- u32, le
    obtain ⟨b0, b1, b2, b3, tl, rfl⟩ := exists_cons4 buf hlen
    have h0 : b0 < 256 := hbytes b0 (by simp)
    have h1 : b1 < 256 := hbytes b1 (by simp)
    have h2 : b2 < 256 := hbytes b2 (by simp)
    have h3 : b3 < 256 := hbytes b3 (by simp)
    simp only [read, u32.from_u8_le, List.getElem?_cons_zero, List.getElem?_cons_succ,
      Bind.bind, Option.bind, Pure.pure, specIntDecode]
    rw [specLeValue_four, or4 h2 h1 h0]
  · -- i32, be
    obtain ⟨b0, b1, b2, b3, tl, rfl⟩ := exists_cons4 buf hlen
    have h0 : b0 < 256 := hbytes b0 (by simp)
    have h1 : b1 < 256 := hbytes b1 (by simp)
    have h2 : b2 < 256 := hbytes b2 (by simp)
    have h3 : b3 < 256 := hbytes b3 (by simp)
    simp only [read, i32.from_u8_be, List.getElem?_cons_zero, List.getElem?_cons_succ,
      Bind.bind, Option.bind, Pure.pure, specIntDecode]
    rw [specBeValue_four, or4 h1 h2 h3]
  · -- i32, le
    obtain ⟨b0, b1, b2, b3, tl, rfl⟩ := exists_cons4 buf hlen
    have h0 : b0 < 256 := hbytes b0 (by simp)
    have h1 : b1 < 256 := hbytes b1 (by simp)
    have h2 : b2 < 256 := hbytes b2 (by simp)
    have h3 : b3 < 256 := hbytes b3 (by simp)
    simp only [read, i32.from_u8_le, List.getElem?_cons_zero, List.getElem?_cons_succ,
      Bind.bind, Option.bind, Pure.pure, specIntDecode]
    rw [specLeValue_four, or4 h2 h1 h0]
  · -- u64, be
    obtain ⟨b0, b1, b2, b3, b4, b5, b6, b7, tl, rfl⟩ := exists_cons8 buf hlen
    have h0 : b0 < 256 := hbytes b0 (by simp)
    have h1 : b1 < 256 := hbytes b1 (by simp)
    have h2 : b2 < 256 := hbytes b2 (by simp)
    have h3 : b3 < 256 := hbytes b3 (by simp)
    have h4 : b4 < 256 := hbytes b4 (by simp)
    have h5 : b5 < 256 := hbytes b5 (by simp)
    have h6 : b6 < 256 := hbytes b6 (by simp)
    have h7 : b7 < 256 := hbytes b7 (by simp)
    simp only [read, u64.from_u8_be, List.getElem?_cons_zero, List.getElem?_cons_succ,
      Bind.bind, Option.bind, Pure.pure, specIntDecode]
    rw [specBeValue_eight, or8 h1 h2 h3 h4 h5 h6 h7]
  · -- u64, le
    obtain ⟨b0, b1, b2, b3, b4, b5, b6, b7, tl, rfl⟩ := exists_cons8 buf hlen
    have h0 : b0 < 256 := hbytes b0 (by simp)
    have h1 : b1 < 256 := hbytes b1 (by simp)
    have h2 : b2 < 256 := hbytes b2 (by simp)
    have h3 : b3 < 256 := hbytes b3 (by simp)
    have h4 : b4 < 256 := hbytes b4 (by simp)
    have h5 : b5 < 256 := hbytes b5 (by simp)
    have h6 : b6 < 256 := hbytes b6 (by simp)
    have h7 : b7 < 256 := hbytes b7 (by simp)
    simp only [read, u64.from_u8_le, List.getElem?_cons_zero, List.getElem?_cons_succ,
      Bind.bind, Option.bind, Pure.pure, specIntDecode]
    rw [specLeValue_eight, or8 h6 h5 h4 h3 h2 h1 h0]
  · -- i64, be
    obtain ⟨b0, b1, b2, b3, b4, b5, b6, b7, tl, rfl⟩ := exists_cons8 buf hlen
    have h0 : b0 < 256 := hbytes b0 (by simp)
    have h1 : b1 < 256 := hbytes b1 (by simp)
    have h2 : b2 < 256 := hbytes b2 (by simp)
    have h3 : b3 < 256 := hbytes b3 (by simp)
    have h4 : b4 < 256 := hbytes b4 (by simp)
    have h5 : b5 < 256 := hbytes b5 (by simp)
    have h6 : b6 < 256 := hbytes b6 (by simp)
    have h7 : b7 < 256 := hbytes b7 (by simp)
    simp only [read, i64.from_u8_be, List.getElem?_cons_zero, List.getElem?_cons_succ,
      Bind.bind, Option.bind, Pure.pure, specIntDecode]
    rw [specBeValue_eight, or8 h1 h2 h3 h4 h5 h6 h7]
  · -- i64, le
    obtain ⟨b0, b1, b2, b3, b4, b5, b6, b7, tl, rfl⟩ := exists_cons8 buf hlen
    have h0 : b0 < 256 := hbytes b0 (by simp)
    have h1 : b1 < 256 := hbytes b1 (by simp)
    have h2 : b2 < 256 := hbytes b2 (by simp)
    have h3 : b3 < 256 := hbytes b3 (by simp)
    have h4 : b4 < 256 := hbytes b4 (by simp)
    have h5 : b5 < 256 := hbytes b5 (by simp)
    have h6 : b6 < 256 := hbytes b6 (by simp)
    have h7 : b7 < 256 := hbytes b7 (by simp)
    simp only [read, i64.from_u8_le, List.getElem?_cons_zero, List.getElem?_cons_succ,
      Bind.bind, Option.bind, Pure.pure, specIntDecode]
    rw [specLeValue_eight, or8 h6 h5 h4 h3 h2 h1 h0]

/-- C1: for every scalar type T and value v, encoding v into a window of at
least width(T) bytes and then decoding that window yields v again, for both
byte orders; float values are their bit patterns, so equality is bit-for-bit
and preserves NaN payloads and signed zero. -/
theorem C1_scalar_roundtrip (t : ScalarTy) (ord : Order) (v : Value t) (buf : List Nat)
    (hv : valid t v) (hbuf : width t ≤ buf.length) :
    ∃ out, write t ord v buf = .ok out ∧ read t ord out = some v :=
  ⟨encBytes t ord v ++ buf.drop (width t), write_ok t ord v buf hbuf,
    (codecFacts t ord).dec_block v hv _⟩

/-- C1 witness at u32, big-endian. -/
theorem C1_scalar_roundtrip_witness :
    ∃ out, write ScalarTy.u32 Order.be 0xABCDEF [0, 0, 0, 0] = .ok out ∧
      read ScalarTy.u32 Order.be out = some 0xABCDEF :=
  C1_scalar_roundtrip ScalarTy.u32 Order.be 0xABCDEF [0, 0, 0, 0] (by decide) (by decide)

/-- C2 counterexample: big-endian u32 encode into a 2-byte window mutates the
two bytes of the window before the out-of-bounds fault at index 2 is raised,
so the fault is not raised before any output byte is mutated. -/
theorem C2_counterexample :
    write ScalarTy.u32 Order.be 0xAABBCCDD [0, 0] = .error [0xAA, 0xBB] ∧
      [0xAA, 0xBB] ≠ [0, 0] := by
  constructor
  · rfl
  · decide

/-- C2 amended: with a window shorter than width(T), decoding faults before
producing any value and encoding faults before completing; a little-endian
encode faults before mutating any byte, while a big-endian encode may write a
prefix of the window before the fault. -/
theorem C2_short_fault (t : ScalarTy) (ord : Order) (v : Value t) (buf : List Nat)
    (hv : valid t v) (hshort : buf.length < width t) :
    read t ord buf = none ∧ (∃ e, write t ord v buf = .error e) ∧
      (ord = Order.le → write t ord v buf = .error buf) := by
  refine ⟨(codecFacts t ord).dec_short buf hshort, ?_, ?_⟩
  · obtain ⟨x, hx⟩ := (codecFacts t ord).wprog_max v
    exact execWritesIn_error_of_big buf.length _ ⟨(width t - 1, x), hx, by omega⟩ 0 buf
  · intro hord
    obtain ⟨x, rest, hfirst⟩ := (codecFacts t ord).le_first hord v
    show execWritesIn 0 buf.length (writeProg t ord v) buf = .error buf
    rw [hfirst]
    simp only [execWritesIn]
    rw [if_neg (by omega)]

/-- C2 witness at u16, little-endian, on a 1-byte window. -/
theorem C2_short_fault_witness :
    read ScalarTy.u16 Order.le [7] = none ∧
      (∃ e, write ScalarTy.u16 Order.le 5 [7] = .error e) ∧
      (Order.le = Order.le → write ScalarTy.u16 Order.le 5 [7] = .error [7]) :=
  C2_short_fault ScalarTy.u16 Order.le 5 [7] (by decide) (by decide)

/-- C3 witness at u16, big-endian, on the bytes [0x12, 0x34, 0x56]. -/
theorem C3_decode_formula_witness :
    read ScalarTy.u16 Order.be [0x12, 0x34, 0x56] =
      specIntDecode ScalarTy.u16 Order.be [0x12, 0x34, 0x56] :=
  C3_decode_formula ScalarTy.u16 (by decide) Order.be [0x12, 0x34, 0x56] (by decide)
    (by decide)

/-- C4: for every scalar type of width at least 2, the little-endian encoding
(the first width(T) bytes written into a large enough window) is the reverse
of the big-endian encoding. -/
theorem C4_endian_inversion (t : ScalarTy) (v : Value t) (buf : List Nat)
    (hwide : 2 ≤ width t) (hbuf : width t ≤ buf.length) :
    ∃ outLe outBe, write t Order.le v buf = .ok outLe ∧ write t Order.be v buf = .ok outBe ∧
      outLe.take (width t) = (outBe.take (width t)).reverse := by
  refine ⟨_, _, write_ok t Order.le v buf hbuf, write_ok t Order.be v buf hbuf, ?_⟩
  rw [List.take_left' ((codecFacts t Order.le).bytes_len v),
    List.take_left' ((codecFacts t Order.be).bytes_len v)]
  cases t <;> first
    | exact absurd hwide (by decide)
    | rfl

/-- C4 witness at u16 on a 3-byte window. -/
theorem C4_endian_inversion_witness :
    ∃ outLe outBe, write ScalarTy.u16 Order.le 0x1234 [9, 9, 9] = .ok outLe ∧
      write ScalarTy.u16 Order.be 0x1234 [9, 9, 9] = .ok outBe ∧
      outLe.take (width ScalarTy.u16) = (outBe.take (width ScalarTy.u16)).reverse :=
  C4_endian_inversion ScalarTy.u16 0x1234 [9, 9, 9] (by decide) (by decide)

/-- C5: encoding a sequence into a window of exactly n*width(T) bytes and
decoding that window back yields an equal sequence, for both orders. -/
theorem C5_sequence_roundtrip (t : ScalarTy) (ord : Order) (s : List (Value t))
    (buf : List Nat) (hs : ∀ x ∈ s, valid t x) (hbuf : buf.length = s.length * width t) :
    ∃ out, vecWrite t ord s buf = .ok out ∧ vecRead t ord out = some s := by
  have h1 := vecWrite_ok t ord s buf (by omega)
  have hdrop : buf.drop (s.length * width t) = [] := by
    rw [← hbuf]
    exact List.drop_length buf
  rw [hdrop, List.append_nil] at h1
  exact ⟨_, h1, vecRead_blocks t ord s hs⟩

/-- C5 witness: the sequence [0x1234, 0x5678] of u16, little-endian, into a
4-byte window. -/
theorem C5_sequence_roundtrip_witness :
    ∃ out, vecWrite ScalarTy.u16 Order.le [0x1234, 0x5678] [0, 0, 0, 0] = .ok out ∧
      vecRead ScalarTy.u16 Order.le out = some [0x1234, 0x5678] :=
  C5_sequence_roundtrip ScalarTy.u16 Order.le [0x1234, 0x5678] [0, 0, 0, 0] (by decide)
    (by decide)

/-- C6: decoding a window of length L as a sequence of T yields exactly
L / width(T) elements, element i decoded from the slice [i*w, (i+1)*w), and
the trailing remainder bytes are discarded without fault. -/
theorem C6_truncating_decode (t : ScalarTy) (ord : Order) (input : List Nat) :
    ∃ out, vecRead t ord input = some out ∧ out.length = input.length / width t ∧
      ∀ i, i < input.length / width t →
        out[i]? = read t ord ((input.drop (i * width t)).take (width t)) := by
  obtain ⟨out, h1, h2, h3⟩ := vecRead_total t ord input
  refine ⟨out, h1, h2, fun i hi => ?_⟩
  rw [h3 i, if_pos hi]

/-- C6 witness: a 5-byte window decoded as a u16 sequence. -/
theorem C6_truncating_decode_witness :
    ∃ out, vecRead ScalarTy.u16 Order.be [1, 2, 3, 4, 5] = some out ∧
      out.length = [1, 2, 3, 4, 5].length / width ScalarTy.u16 ∧
      ∀ i, i < [1, 2, 3, 4, 5].length / width ScalarTy.u16 →
        out[i]? = read ScalarTy.u16 Order.be
          (([1, 2, 3, 4, 5].drop (i * width ScalarTy.u16)).take (width ScalarTy.u16)) :=
  C6_truncating_decode ScalarTy.u16 Order.be [1, 2, 3, 4, 5]

/-- C7: two windows of length at least width(T) that agree on their first
width(T) bytes decode to the same value — bytes past the width never
influence the result. -/
theorem C7_prefix_tolerance (t : ScalarTy) (ord : Order) (l1 l2 : List Nat)
    (h1 : width t ≤ l1.length) (h2 : width t ≤ l2.length)
    (hpre : l1.take (width t) = l2.take (width t)) :
    read t ord l1 = read t ord l2 :=
  (codecFacts t ord).dec_take l1 l2 hpre

/-- C7 witness at u32, big-endian. -/
theorem C7_prefix_tolerance_witness :
    read ScalarTy.u32 Order.be [1, 2, 3, 4, 5] = read ScalarTy.u32 Order.be [1, 2, 3, 4, 9, 9] :=
  C7_prefix_tolerance ScalarTy.u32 Order.be [1, 2, 3, 4, 5] [1, 2, 3, 4, 9, 9] (by decide)
    (by decide) (by decide)

/-- C8: a scalar encode into a window longer than width(T) succeeds, preserves
the window length, and leaves every byte at index width(T) or beyond at its
prior value; a sequence encode of n elements likewise leaves all bytes at
index n*width(T) or beyond unchanged, for both byte orders. -/
theorem C8_frame_effect (t : ScalarTy) (ord : Order) (v : Value t) (s : List (Value t))
    (buf1 buf2 : List Nat) (h1 : width t < buf1.length)
    (h2 : s.length * width t ≤ buf2.length) :
    (∃ out, write t ord v buf1 = .ok out ∧ out.length = buf1.length ∧
      out.drop (width t) = buf1.drop (width t)) ∧
    (∃ out, vecWrite t ord s buf2 = .ok out ∧ out.length = buf2.length ∧
      out.drop (s.length * width t) = buf2.drop (s.length * width t)) := by
  constructor
  · refine ⟨_, write_ok t ord v buf1 (by omega), ?_, ?_⟩
    · rw [List.length_append, (codecFacts t ord).bytes_len v, List.length_drop]
      omega
    · exact List.drop_left' ((codecFacts t ord).bytes_len v)
  · have hbl : (blocksOf (encBytes t ord) s).length = s.length * width t :=
      blocksOf_length (fun x => (codecFacts t ord).bytes_len x) s
    refine ⟨_, vecWrite_ok t ord s buf2 h2, ?_, ?_⟩
    · rw [List.length_append, hbl, List.length_drop]
      omega
    · exact List.drop_left' hbl

/-- C8 witness at u32, big-endian, with a one-element u32 sequence. -/
theorem C8_frame_effect_witness :
    (∃ out, write ScalarTy.u32 Order.be 7 [1, 2, 3, 4, 5, 6] = .ok out ∧
      out.length = [1, 2, 3, 4, 5, 6].length ∧
      out.drop (width ScalarTy.u32) = [1, 2, 3, 4, 5, 6].drop (width ScalarTy.u32)) ∧
    (∃ out, vecWrite ScalarTy.u32 Order.be [7] [1, 2, 3, 4, 5, 6] = .ok out ∧
      out.length = [1, 2, 3, 4, 5, 6].length ∧
      out.drop ([(7 : Nat)].length * width ScalarTy.u32) =
        [1, 2, 3, 4, 5, 6].drop ([(7 : Nat)].length * width ScalarTy.u32)) :=
  C8_frame_effect ScalarTy.u32 Order.be 7 [7] [1, 2, 3, 4, 5, 6] [1, 2, 3, 4, 5, 6]
    (by decide) (by decide)

/-- C9: decoding a window strictly shorter than width(T) as a sequence of T
does not fault and returns the empty sequence. -/
theorem C9_short_sequence_empty (t : ScalarTy) (ord : Order) (input : List Nat)
    (h : input.length < width t) : vecRead t ord input = some [] :=
  vecRead_short t ord input h

/-- C9 witness: a 3-byte window as a u32 sequence. -/
theorem C9_short_sequence_empty_witness :
    vecRead ScalarTy.u32 Order.le [1, 2, 3] = some [] :=
  C9_short_sequence_empty ScalarTy.u32 Order.le [1, 2, 3] (by decide)

/-- C10: for a multi-byte scalar, a little-endian encode into a too-short
window faults on its very first store, which targets index width-1, and so
leaves the window unchanged; the big-endian store sequence targets indices in
ascending order starting at 0. -/
theorem C10_le_first_store (t : ScalarTy) (hwide : 2 ≤ width t) (v : Value t)
    (buf : List Nat) (hshort : buf.length < width t) :
    write t Order.le v buf = .error buf ∧
      (∃ x rest, writeProg t Order.le v = (width t - 1, x) :: rest) ∧
      (writeProg t Order.be v).map Prod.fst = List.range (width t) := by
  obtain ⟨x, rest, hfirst⟩ := (codecFacts t Order.le).le_first rfl v
  refine ⟨?_, ⟨x, rest, hfirst⟩, ?_⟩
  · show execWritesIn 0 buf.length (writeProg t Order.le v) buf = .error buf
    rw [hfirst]
    simp only [execWritesIn]
    rw [if_neg (by omega)]
  · cases t <;>
      simp [writeProg, u8.to_u8_be_writes, i8.to_u8_be_writes, u16.to_u8_be_writes,
        i16.to_u8_be_writes, u32.to_u8_be_writes, i32.to_u8_be_writes, u64.to_u8_be_writes,
        i64.to_u8_be_writes, f32.to_u8_be_writes, f64.to_u8_be_writes, bool.to_u8_be_writes,
        List.range_succ]

/-- C10 witness at u32 on a 2-byte window. -/
theorem C10_le_first_store_witness :
    write ScalarTy.u32 Order.le 0xAABBCCDD [0, 0] = .error [0, 0] ∧
      (∃ x rest, writeProg ScalarTy.u32 Order.le 0xAABBCCDD =
        (width ScalarTy.u32 - 1, x) :: rest) ∧
      (writeProg ScalarTy.u32 Order.be 0xAABBCCDD).map Prod.fst =
        List.range (width ScalarTy.u32) :=
  C10_le_first_store ScalarTy.u32 (by decide) 0xAABBCCDD [0, 0] (by decide)

end ByteIO
